import Mathlib

/-!
Multithreaded file server: wire codec, store and schedulers.

A shallow embedding of `protocol.cpp`, `utils.cpp`, `scheduler.{h,cpp}` and the
request-handling part of `server.cpp`, followed by theorems about them.

Conventions of the embedding.

* A `std::string` is a `List Char`, one `Char` per byte; `length` is `string::length`.
* A socket descriptor is a `Sock`: the bytes the peer has sent and that are still
  unread (followed by end of stream), the bytes delivered to the peer, and a script of
  the results of the coming `send()` system calls.
* `size_t` counters that count bytes or elements held in memory (`get_file_size`,
  `received`, `lines_processed`) are `Nat`: they are bounded by the address space and
  cannot wrap.  The `size_t` read from the wire by `operator>>` is saturated at
  `2^64 - 1` as the library does.
* A loop that the C++ code may run forever has a fuel argument and returns `none`
  when the fuel is used up; totality theorems show when that cannot happen.
-/

namespace FileServer

/-! ## Strings and protocol constants (protocol.h) -/

/-- A C++ `std::string`, as its sequence of bytes. -/
abbrev Str := List Char

def PROTOCOL_PUT : Str := "PUT".toList
def PROTOCOL_GET : Str := "GET".toList
def PROTOCOL_OK : Str := "OK".toList
def PROTOCOL_ERROR : Str := "ERROR".toList
def PROTOCOL_SIZE : Str := "SIZE".toList
def PROTOCOL_END : Str := "END".toList

inductive RequestType where
  | PUT
  | GET
  | UNKNOWN
  deriving DecidableEq, Repr

/-- The `Request` struct of protocol.h; the defaults are those of its constructor. -/
structure Request where
  type : RequestType := RequestType.UNKNOWN
  filename : Str := []
  file_size : Nat := 0
  file_lines : List Str := []
  client_id : Int := 0
  arrival_time : Int := 0
  start_time : Int := 0
  finish_time : Int := 0
  lines_processed : Nat := 0
  deriving DecidableEq, Repr

/-! ## Sockets -/

/-- The state of one TCP connection as seen through its descriptor.
`inp`: bytes sent by the peer and not read yet; after them the stream ends.
`out`: bytes the kernel has accepted for the peer, in order.
`net`: the results of the coming `send()` calls: `0` stands for a result `<= 0`
(error), `k > 0` for "at most `k` bytes accepted"; once the script is used up every
`send()` accepts all the bytes it is given. -/
structure Sock where
  inp : List Char := []
  out : List Char := []
  net : List Nat := []
  deriving DecidableEq, Repr

/-- The retry loop `while (total_sent < len) { sent = send(..); if (sent <= 0) return
false; total_sent += sent; }` shared by `send_line` and `send_file`; the last argument
is the part of the message not sent yet. -/
def send_all : List Nat → List Char → List Char → Bool × List Char × List Nat
  | net, out, [] => (true, out, net)
  | [], out, c :: msg => (true, out ++ c :: msg, [])
  | 0 :: net, out, _ :: _ => (false, out, net)
  | (k + 1) :: net, out, c :: msg =>
      send_all net (out ++ (c :: msg).take (k + 1)) ((c :: msg).drop (k + 1))

/-- Runs `send_all` on a socket. -/
def Sock.send (s : Sock) (msg : List Char) : Bool × Sock :=
  match send_all s.net s.out msg with
  | (ok, out, net) => (ok, { s with out := out, net := net })

/-- The function `send_line` of protocol.cpp: sends `message + "\n"`. -/
def send_line (s : Sock) (message : Str) : Bool × Sock :=
  s.send (message ++ ['\n'])

/-- The byte-at-a-time loop of `recv_line`: `line` is the accumulator. -/
def recv_line_loop : List Char → Str → Bool × Str × List Char
  | [], line => (false, line, [])
  | c :: rest, line =>
      if c = '\n' then (true, line, rest) else recv_line_loop rest (line ++ [c])

/-- The function `recv_line` of protocol.cpp. -/
def recv_line (s : Sock) : Bool × Str × Sock :=
  match recv_line_loop s.inp [] with
  | (ok, line, rest) => (ok, line, { s with inp := rest })

/-- The body `packet += lines[j] + "\n"` for `j` in `[i, end)`. -/
def make_packet (lines : List Str) : List Char :=
  lines.foldl (fun packet line => packet ++ (line ++ ['\n'])) []

/-- The outer loop of `send_file`; the list is `lines[i..]`, so that
`lines[i .. min(i + packet_size, size))` is `take packet_size`.  `none`: out of fuel. -/
def send_file_loop (packet_size : Nat) : Nat → Sock → List Str → Option (Bool × Sock)
  | _, s, [] => some (true, s)
  | 0, _, _ :: _ => none
  | fuel + 1, s, l :: ls =>
      match s.send (make_packet ((l :: ls).take packet_size)) with
      | (false, s1) => some (false, s1)
      | (true, s1) => send_file_loop packet_size fuel s1 ((l :: ls).drop packet_size)

/-- The function `send_file` of protocol.cpp.  Every iteration with
`packet_size >= 1` advances `i`, so `lines.size()` iterations are enough; with
`packet_size = 0` and a non-empty file the C++ loop never ends (`none`). -/
def send_file (s : Sock) (lines : List Str) (packet_size : Nat) : Option (Bool × Sock) :=
  match send_file_loop packet_size lines.length s lines with
  | none => none
  | some (false, s1) => some (false, s1)
  | some (true, s1) => some (send_line s1 PROTOCOL_END)

/-- The loop of `recv_file`: `received` and `lines` are the loop variables.  Every
iteration reads at least one byte or fails, so `inp.length` iterations are enough.
`none`: out of fuel. -/
def recv_file_loop (size : Nat) : Nat → Sock → Nat → List Str → Option (Bool × List Str × Sock)
  | fuel, s, received, lines =>
      if received < size then
        match recv_line s with
        | (false, _, s1) => some (false, lines, s1)
        | (true, line, s1) =>
            if line = PROTOCOL_END then some (true, lines, s1)
            else
              match fuel with
              | 0 => none
              | fuel1 + 1 =>
                  recv_file_loop size fuel1 s1 (received + (line.length + 1)) (lines ++ [line])
      else some (true, lines, s)

/-- The function `recv_file` of protocol.cpp. -/
def recv_file (s : Sock) (size : Nat) : Option (Bool × List Str × Sock) :=
  recv_file_loop size s.inp.length s 0 []

/-! ## utils.cpp -/

/-- The function `get_file_size` of utils.cpp: the accumulating loop. -/
def get_file_size (lines : List Str) : Nat :=
  lines.foldl (fun size line => size + (line.length + 1)) 0

/-! ## Library functions used by the parser -/

/-- The decimal digit `d` (`0 <= d <= 9`) as a byte. -/
def digit_char (d : Nat) : Char := Char.ofNat (48 + d)

/-- Digits of `n`, least significant first; `fuel` bounds the number of digits. -/
def to_string_rev : Nat → Nat → List Char
  | 0, _ => []
  | fuel + 1, n =>
      if n < 10 then [digit_char n]
      else digit_char (n % 10) :: to_string_rev fuel (n / 10)

/-- The library function `std::to_string(size_t)`: decimal, no sign, no leading zero. -/
def to_string (n : Nat) : Str := (to_string_rev (n + 1) n).reverse

/-- The predicate `isspace` of the "C" locale. -/
def isspace (c : Char) : Bool :=
  c = ' ' || c = '\t' || c = '\n' || c.toNat = 11 || c.toNat = 12 || c = '\r'

/-- The extraction `iss >> token` for a `std::string`: skip leading whitespace, then take
the bytes up to the next whitespace.  Returns the token and the rest of the stream; the
token is empty exactly when the extraction fails (then the rest is empty too). -/
def extract_token (s : List Char) : Str × List Char :=
  let t := s.dropWhile isspace
  (t.takeWhile (fun c => !isspace c), t.dropWhile (fun c => !isspace c))

/-- The predicate `isdigit`. -/
def isdigit (c : Char) : Bool := 48 ≤ c.toNat && c.toNat ≤ 57

/-- The value of a run of decimal digits. -/
def digits_value (ds : List Char) : Nat :=
  ds.foldl (fun acc c => acc * 10 + (c.toNat - 48)) 0

/-- The largest `size_t`. -/
def SIZE_MAX : Nat := 2 ^ 64 - 1

/-- The conversion of the field `sign digits` to `size_t` done by `num_get` (as
`strtoull`): a too large value gives `SIZE_MAX`, a minus sign negates modulo `2^64`. -/
def convert_size_t (negative : Bool) (ds : List Char) : Nat :=
  let v := digits_value ds
  if SIZE_MAX < v then SIZE_MAX
  else if negative then (2 ^ 64 - v) % 2 ^ 64 else v

/-- The extraction `iss >> value` for a `size_t`, on a stream whose fail bit is clear:
`old` is the value the variable held.  After the leading whitespace: at end of stream the
variable is left as it was; otherwise an optional sign and the digits that follow are
converted, and `0` is stored when there is no digit. -/
def extract_size_t (s : List Char) (old : Nat) : Nat :=
  match s.dropWhile isspace with
  | [] => old
  | c :: t =>
      let negative := (c = '-')
      let body := if c = '-' ∨ c = '+' then t else c :: t
      let ds := body.takeWhile isdigit
      if ds = [] then 0 else convert_size_t negative ds

/-! ## parse_request (protocol.cpp) -/

/-- The function `parse_request` of protocol.cpp.  The request is updated in place, also
on the failing paths; `none` only if `recv_file` runs out of fuel. -/
def parse_request (s : Sock) (request : Request) : Option (Bool × Request × Sock) :=
  match recv_line s with
  | (false, _, s1) => some (false, request, s1)
  | (true, command, s1) =>
      let (cmd, rest) := extract_token command
      let (filename, _) := extract_token rest
      if cmd = PROTOCOL_PUT then
        let request1 := { request with type := RequestType.PUT, filename := filename }
        match recv_line s1 with
        | (false, _, s2) => some (false, request1, s2)
        | (true, size_line, s2) =>
            let (size_cmd, size_rest) := extract_token size_line
            let request2 :=
              if size_cmd = [] then request1
              else { request1 with file_size := extract_size_t size_rest request1.file_size }
            if size_cmd ≠ PROTOCOL_SIZE then some (false, request2, s2)
            else
              match recv_file s2 request2.file_size with
              | none => none
              | some (false, lines, s3) => some (false, { request2 with file_lines := lines }, s3)
              | some (true, lines, s3) => some (true, { request2 with file_lines := lines }, s3)
      else if cmd = PROTOCOL_GET then
        some (true, { request with type := RequestType.GET, filename := filename }, s1)
      else some (false, request, s1)

/-! ## The store (server.cpp) -/

/-- The global `map<string, vector<string>> file_storage`: a list of bindings with
pairwise distinct keys. -/
abbrev Store := List (Str × List Str)

/-- The lookup `file_storage.find(filename)`. -/
def map_find : Store → Str → Option (List Str)
  | [], _ => none
  | (k, v) :: rest, key => if k = key then some v else map_find rest key

/-- The assignment `file_storage[filename] = lines`: the value of an existing key is
replaced, a new key is inserted. -/
def map_assign : Store → Str → List Str → Store
  | [], key, lines => [(key, lines)]
  | (k, v) :: rest, key, lines =>
      if k = key then (k, lines) :: rest else (k, v) :: map_assign rest key lines

/-- The function `store_file` of server.cpp. -/
def store_file (file_storage : Store) (filename : Str) (lines : List Str) : Store :=
  map_assign file_storage filename lines

/-- The function `retrieve_file` of server.cpp; `lines` is the caller's vector, left as
it is when the file is absent. -/
def retrieve_file (file_storage : Store) (filename : Str) (lines : List Str) :
    Bool × List Str :=
  match map_find file_storage filename with
  | none => (false, lines)
  | some v => (true, v)

/-- The function `handle_put` of server.cpp. -/
def handle_put (file_storage : Store) (client_sock : Sock) (request : Request) :
    Store × Bool × Sock :=
  (store_file file_storage request.filename request.file_lines,
    send_line client_sock PROTOCOL_OK)

/-- The function `handle_get` of server.cpp; `packet_size` is the global of that name. -/
def handle_get (file_storage : Store) (packet_size : Nat) (client_sock : Sock)
    (request : Request) : Option (Bool × Sock) :=
  match retrieve_file file_storage request.filename [] with
  | (false, _) =>
      some (false, (send_line client_sock (PROTOCOL_ERROR ++ " File not found".toList)).2)
  | (true, lines) =>
      match send_line client_sock PROTOCOL_OK with
      | (false, s1) => some (false, s1)
      | (true, s1) =>
          let file_size := get_file_size lines
          match send_line s1 (PROTOCOL_SIZE ++ " ".toList ++ to_string file_size) with
          | (false, s2) => some (false, s2)
          | (true, s2) => send_file s2 lines packet_size

/-! ## The steady clock -/

/-- The steady clock as the program observes it: `time n` is the value (in ns) returned
by the `n`-th reading, `reads` the number of readings made so far. -/
structure Clock where
  time : Nat → Int
  reads : Nat := 0

/-- One reading of the clock (`get_current_time_ns`, `steady_clock::now`). -/
def Clock.now (c : Clock) : Int × Clock :=
  (c.time c.reads, { c with reads := c.reads + 1 })

/-! ## Schedulers (scheduler.h, scheduler.cpp) -/

/-- The result of a call of `get_next_request`. -/
inductive Dispatch (σ : Type) where
  /-- the condition variable's predicate is false: the call does not return in this state -/
  | blocked : Dispatch σ
  /-- the call returns `nullptr` -/
  | null : Dispatch σ
  /-- the call returns a request and leaves the scheduler in the given state -/
  | request : Request → σ → Dispatch σ

/-- The base class `Scheduler`: `request_queue` (front of the queue first) and the
`shutdown` flag.  The mutex and the condition variable are not modelled. -/
structure Scheduler where
  request_queue : List Request := []
  shutdown : Bool := false
  deriving DecidableEq, Repr

/-- The method `Scheduler::add_request`. -/
def Scheduler.add_request (s : Scheduler) (req : Request) : Scheduler :=
  { s with request_queue := s.request_queue ++ [req] }

/-- The method `Scheduler::signal_shutdown`. -/
def Scheduler.signal_shutdown (s : Scheduler) : Scheduler :=
  { s with shutdown := true }

/-- The method `Scheduler::empty`. -/
def Scheduler.empty (s : Scheduler) : Bool :=
  s.request_queue.isEmpty

/-- The class `FCFSScheduler`: no member of its own. -/
structure FCFSScheduler extends Scheduler
  deriving DecidableEq, Repr

/-- The method `FCFSScheduler::add_request`, inherited from the base class. -/
def FCFSScheduler.add_request (s : FCFSScheduler) (req : Request) : FCFSScheduler :=
  { s with toScheduler := s.toScheduler.add_request req }

/-- The method `FCFSScheduler::get_next_request`. -/
def FCFSScheduler.get_next_request (s : FCFSScheduler) : Dispatch FCFSScheduler :=
  if !(!s.request_queue.isEmpty || s.shutdown) then Dispatch.blocked
  else if s.shutdown && s.request_queue.isEmpty then Dispatch.null
  else
    match s.request_queue with
    | [] => Dispatch.blocked
    | req :: rest => Dispatch.request req { s with request_queue := rest }

/-- The comparator `SJFScheduler::SJFComparator`. -/
def SJFComparator (a b : Request) : Bool :=
  decide (a.file_size > b.file_size)

/-- The contract of `std::priority_queue<T, vector<T>, Compare>`, whose code is the
library's.  `elems` is the multiset of the elements held.  `top` is `none` only on an
empty queue (where the C++ call is undefined); on a non-empty queue it is an element
`x` of the queue with `comp x y` false for every element `y`, and `pop` removes it. -/
structure PriorityQueue (α : Type) (comp : α → α → Bool) where
  Q : Type
  emp : Q
  is_empty : Q → Bool
  push : Q → α → Q
  top : Q → Option α
  pop : Q → Q
  elems : Q → Multiset α
  elems_emp : elems emp = 0
  is_empty_iff : ∀ q, is_empty q = true ↔ elems q = 0
  elems_push : ∀ q x, elems (push q x) = x ::ₘ elems q
  top_pop : ∀ q, elems q ≠ 0 →
    ∃ x, top q = some x ∧ elems q = x ::ₘ elems (pop q) ∧ ∀ y ∈ elems q, comp x y = false

/-- The class `SJFScheduler`: the base members and `sjf_queue`. -/
structure SJFScheduler (P : PriorityQueue Request SJFComparator) extends Scheduler where
  sjf_queue : P.Q := P.emp

/-- The method `SJFScheduler::add_request`. -/
def SJFScheduler.add_request {P : PriorityQueue Request SJFComparator}
    (s : SJFScheduler P) (req : Request) : SJFScheduler P :=
  { s with sjf_queue := P.push s.sjf_queue req }

/-- The method `SJFScheduler::get_next_request`. -/
def SJFScheduler.get_next_request {P : PriorityQueue Request SJFComparator}
    (s : SJFScheduler P) : Dispatch (SJFScheduler P) :=
  if !(!P.is_empty s.sjf_queue || s.shutdown) then Dispatch.blocked
  else if s.shutdown && P.is_empty s.sjf_queue then Dispatch.null
  else
    match P.top s.sjf_queue with
    | none => Dispatch.blocked
    | some req => Dispatch.request req { s with sjf_queue := P.pop s.sjf_queue }

/-- The class `RRScheduler`: the base members, `quantum` (an `int`, in ms; its product
with `1'000'000` fits a `long long`) and `rr_queue`. -/
structure RRScheduler extends Scheduler where
  quantum : Int
  rr_queue : List Request := []
  deriving DecidableEq, Repr

/-- The method `RRScheduler::add_request`. -/
def RRScheduler.add_request (s : RRScheduler) (req : Request) : RRScheduler :=
  { s with rr_queue := s.rr_queue ++ [req] }

/-- The method `RRScheduler::get_next_request`. -/
def RRScheduler.get_next_request (s : RRScheduler) : Dispatch RRScheduler :=
  if !(!s.rr_queue.isEmpty || s.shutdown) then Dispatch.blocked
  else if s.shutdown && s.rr_queue.isEmpty then Dispatch.null
  else
    match s.rr_queue with
    | [] => Dispatch.blocked
    | req :: rest => Dispatch.request req { s with rr_queue := rest }

/-- The method `RRScheduler::requeue_request`. -/
def RRScheduler.requeue_request (s : RRScheduler) (req : Request) : RRScheduler :=
  { s with rr_queue := s.rr_queue ++ [req] }

/-- The method `RRScheduler::get_quantum`. -/
def RRScheduler.get_quantum (s : RRScheduler) : Int := s.quantum

/-- The inherited `signal_shutdown` on an `FCFSScheduler`. -/
def FCFSScheduler.signal_shutdown (s : FCFSScheduler) : FCFSScheduler :=
  { s with toScheduler := s.toScheduler.signal_shutdown }

/-- The inherited `signal_shutdown` on an `SJFScheduler`. -/
def SJFScheduler.signal_shutdown {P : PriorityQueue Request SJFComparator}
    (s : SJFScheduler P) : SJFScheduler P :=
  { s with toScheduler := s.toScheduler.signal_shutdown }

/-- The inherited `signal_shutdown` on an `RRScheduler`. -/
def RRScheduler.signal_shutdown (s : RRScheduler) : RRScheduler :=
  { s with toScheduler := s.toScheduler.signal_shutdown }

/-- The global `unique_ptr<Scheduler> scheduler`: an object of one of the three classes. -/
inductive AnyScheduler (P : PriorityQueue Request SJFComparator) where
  | FCFS : FCFSScheduler → AnyScheduler P
  | SJF : SJFScheduler P → AnyScheduler P
  | RR : RRScheduler → AnyScheduler P

variable {P : PriorityQueue Request SJFComparator}

/-- The virtual call `scheduler->add_request(req)`. -/
def AnyScheduler.add_request (sch : AnyScheduler P) (req : Request) : AnyScheduler P :=
  match sch with
  | AnyScheduler.FCFS s => AnyScheduler.FCFS (s.add_request req)
  | AnyScheduler.SJF s => AnyScheduler.SJF (s.add_request req)
  | AnyScheduler.RR s => AnyScheduler.RR (s.add_request req)

/-- Moves the state of a dispatch result into `AnyScheduler`. -/
def Dispatch.wrap {σ τ : Type} (f : σ → τ) : Dispatch σ → Dispatch τ
  | Dispatch.blocked => Dispatch.blocked
  | Dispatch.null => Dispatch.null
  | Dispatch.request req s => Dispatch.request req (f s)

/-- The virtual call `scheduler->get_next_request()`. -/
def AnyScheduler.get_next_request (sch : AnyScheduler P) : Dispatch (AnyScheduler P) :=
  match sch with
  | AnyScheduler.FCFS s => s.get_next_request.wrap AnyScheduler.FCFS
  | AnyScheduler.SJF s => s.get_next_request.wrap AnyScheduler.SJF
  | AnyScheduler.RR s => s.get_next_request.wrap AnyScheduler.RR

/-- The base-class part of the scheduler object. -/
def AnyScheduler.base (sch : AnyScheduler P) : Scheduler :=
  match sch with
  | AnyScheduler.FCFS s => s.toScheduler
  | AnyScheduler.SJF s => s.toScheduler
  | AnyScheduler.RR s => s.toScheduler

/-- The call `scheduler->signal_shutdown()` (not virtual). -/
def AnyScheduler.signal_shutdown (sch : AnyScheduler P) : AnyScheduler P :=
  match sch with
  | AnyScheduler.FCFS s => AnyScheduler.FCFS s.signal_shutdown
  | AnyScheduler.SJF s => AnyScheduler.SJF s.signal_shutdown
  | AnyScheduler.RR s => AnyScheduler.RR s.signal_shutdown

/-- The call `scheduler->empty()` (not virtual: it looks at `request_queue`). -/
def AnyScheduler.empty (sch : AnyScheduler P) : Bool := sch.base.empty

/-- The cast `dynamic_cast<RRScheduler*>(scheduler.get())`. -/
def AnyScheduler.rr_sched (sch : AnyScheduler P) : Option RRScheduler :=
  match sch with
  | AnyScheduler.RR s => some s
  | _ => none

/-- The call `rr_sched->requeue_request(request)` on the scheduler object. -/
def AnyScheduler.requeue_request (sch : AnyScheduler P) (req : Request) : AnyScheduler P :=
  match sch with
  | AnyScheduler.RR s => AnyScheduler.RR (s.requeue_request req)
  | other => other

/-! ## The server (server.cpp) -/

/-- The globals of server.cpp together with the environment they act on: the steady
clock and the table of open connections, indexed by descriptor.  `close` is not
modelled: a connection keeps the bytes that were written to it.  `packet_size` is a
`Nat`: `main` exits unless the value given on the command line is positive. -/
structure Server (P : PriorityQueue Request SJFComparator) where
  file_storage : Store := []
  completed_requests : List Request := []
  packet_size : Nat := 10
  scheduler : AnyScheduler P
  clock : Clock
  socks : Int → Sock

/-- Replaces the state of the connection `fd`. -/
def Server.set_sock (sv : Server P) (fd : Int) (s : Sock) : Server P :=
  { sv with socks := Function.update sv.socks fd s }

/-- The dispatch on `request->type` in `process_request`: the value of `success`, the
store and the connection afterwards.  `none`: `send_file` does not end. -/
def process_request_serve (sv : Server P) (request : Request) (client_sock : Int) :
    Option (Bool × Store × Sock) :=
  match request.type with
  | RequestType.PUT =>
      some ((handle_put sv.file_storage (sv.socks client_sock) request).2.1,
        (handle_put sv.file_storage (sv.socks client_sock) request).1,
        (handle_put sv.file_storage (sv.socks client_sock) request).2.2)
  | RequestType.GET =>
      (handle_get sv.file_storage sv.packet_size (sv.socks client_sock) request).map
        (fun r => (r.1, sv.file_storage, r.2))
  | RequestType.UNKNOWN => some (false, sv.file_storage, sv.socks client_sock)

/-- The function `process_request` of server.cpp (FCFS and SJF workers): the start
stamp, the dispatch, the finish stamp and the record in `completed_requests`. -/
def process_request (sv : Server P) (request : Request) (client_sock : Int) :
    Option (Server P) :=
  let request1 := { request with start_time := sv.clock.now.1 }
  match process_request_serve sv request1 client_sock with
  | none => none
  | some (_, st, s) =>
      let request2 := { request1 with finish_time := sv.clock.now.2.now.1 }
      some { sv with
        file_storage := st
        completed_requests := sv.completed_requests ++ [request2]
        clock := sv.clock.now.2.now.2
        socks := Function.update sv.socks client_sock s }

/-- The `while (true)` loop of `process_request_chunk_timed`.  Every iteration that does
not return advances `lines_processed`, so `file_lines.size()` iterations are enough.
The access `file_lines[lines_processed]` is made under the failed test
`lines_processed >= file_lines.size()`.  `none`: out of fuel. -/
def chunk_loop (quantum_ns chunk_start_time : Int) :
    Nat → Request → Sock → Clock → Option (Bool × Request × Sock × Clock)
  | fuel, request, s, clock =>
      if h : request.lines_processed ≥ request.file_lines.length then
        some (true, request, (send_line s PROTOCOL_END).2, clock)
      else
        match fuel with
        | 0 => none
        | fuel1 + 1 =>
            let line_to_send :=
              request.file_lines.get ⟨request.lines_processed, Nat.lt_of_not_ge h⟩
            match send_line s line_to_send with
            | (false, s1) => some (true, request, s1, clock)
            | (true, s1) =>
                let request1 := { request with lines_processed := request.lines_processed + 1 }
                let (now, clock1) := clock.now
                let elapsed_ns := now - chunk_start_time
                if elapsed_ns ≥ quantum_ns then some (false, request1, s1, clock1)
                else chunk_loop quantum_ns chunk_start_time fuel1 request1 s1 clock1

/-- The value `rr_sched ? rr_sched->get_quantum() : 10` of `quantum_ms`. -/
def chunk_quantum_ms (sched : AnyScheduler P) : Int :=
  match sched.rr_sched with
  | some rr => rr.get_quantum
  | none => 10

/-- The GET branch of `process_request_chunk_timed` after the header: reads the quantum
and the start time of the chunk, then runs the loop. -/
def chunk_body (sched : AnyScheduler P) (request : Request) (s : Sock) (clock : Clock) :
    Option (Bool × Request × Sock × Clock) :=
  let quantum_ms := chunk_quantum_ms sched
  let quantum_ns := quantum_ms * 1000000
  let (chunk_start_time, clock1) := clock.now
  chunk_loop quantum_ns chunk_start_time request.file_lines.length request s clock1

/-- The block `if (request->lines_processed == 0) { ... }` of
`process_request_chunk_timed`: the header of the response, sent on the first chunk.  The
flag is `false` when a send failed (the function then returns `true` at once). -/
def chunk_header (s : Sock) (request : Request) : Bool × Sock :=
  if request.lines_processed = 0 then
    match send_line s PROTOCOL_OK with
    | (false, s1) => (false, s1)
    | (true, s1) => send_line s1 (PROTOCOL_SIZE ++ " ".toList ++ to_string request.file_size)
  else (true, s)

/-- The function `process_request_chunk_timed` of server.cpp (RR workers): the result
is its return value (`true`: complete), the request and the server afterwards. -/
def process_request_chunk_timed (sv : Server P) (request : Request) :
    Option (Bool × Request × Server P) :=
  match request.type with
  | RequestType.PUT =>
      let st := store_file sv.file_storage request.filename request.file_lines
      let s := (send_line (sv.socks request.client_id) PROTOCOL_OK).2
      some (true, request, { sv with file_storage := st }.set_sock request.client_id s)
  | RequestType.GET =>
      match chunk_header (sv.socks request.client_id) request with
      | (false, s1) => some (true, request, sv.set_sock request.client_id s1)
      | (true, s1) =>
          match chunk_body sv.scheduler request s1 sv.clock with
          | none => none
          | some (complete, request1, s2, clock1) =>
              some (complete, request1, { sv with clock := clock1 }.set_sock request.client_id s2)
  | RequestType.UNKNOWN => some (true, request, sv)

/-- The statement `if (request->start_time == 0) request->start_time =
get_current_time_ns();` of the RR branch of `worker_thread`. -/
def stamp_start (request : Request) (sv : Server P) : Request × Server P :=
  if request.start_time = 0 then
    ({ request with start_time := sv.clock.now.1 }, { sv with clock := sv.clock.now.2 })
  else (request, sv)

/-- How one iteration of a thread's loop ends. -/
inductive Outcome (σ : Type) where
  /-- the iteration is done and the loop goes on from the given state -/
  | running : σ → Outcome σ
  /-- the loop is left (`break`) -/
  | exited : σ → Outcome σ
  /-- the thread waits on the condition variable -/
  | blocked : σ → Outcome σ
  /-- an inner loop does not end -/
  | diverged : Outcome σ

/-- One iteration of the loop of `worker_thread`. -/
def worker_iteration (sv : Server P) : Outcome (Server P) :=
  match sv.scheduler.get_next_request with
  | Dispatch.blocked => Outcome.blocked sv
  | Dispatch.null => Outcome.exited sv
  | Dispatch.request request sched1 =>
      let sv1 := { sv with scheduler := sched1 }
      match sv1.scheduler.rr_sched with
      | some _ =>
          let request1 := (stamp_start request sv1).1
          let sv2 := (stamp_start request sv1).2
          match process_request_chunk_timed sv2 request1 with
          | none => Outcome.diverged
          | some (true, request2, sv3) =>
              let request3 := { request2 with finish_time := sv3.clock.now.1 }
              Outcome.running { sv3 with
                clock := sv3.clock.now.2
                completed_requests := sv3.completed_requests ++ [request3] }
          | some (false, request2, sv3) =>
              Outcome.running { sv3 with scheduler := sv3.scheduler.requeue_request request2 }
      | none =>
          match process_request sv1 request request.client_id with
          | none => Outcome.diverged
          | some sv2 => Outcome.running sv2

/-- The loop of `worker_thread`, followed for at most `n` iterations. -/
def worker_thread : Nat → Server P → Outcome (Server P)
  | 0, sv => Outcome.running sv
  | n + 1, sv =>
      match worker_iteration sv with
      | Outcome.running sv1 => worker_thread n sv1
      | other => other

/-- The block `if (request->type == RequestType::GET) { ... }` of `acceptor_thread`:
the payload of a GET is copied from the store at admission. -/
def materialize (file_storage : Store) (request : Request) : Request :=
  if request.type = RequestType.GET then
    match retrieve_file file_storage request.filename [] with
    | (true, lines) => { request with file_size := get_file_size lines, file_lines := lines }
    | (false, _) => { request with file_size := 0 }
  else request

/-- One iteration of the loop of `acceptor_thread`, for the connection `client_sock`
that `accept` returned (no shutdown requested).  `none`: `parse_request` out of fuel. -/
def acceptor_iteration (sv : Server P) (client_sock : Int) : Option (Server P) :=
  let request : Request := {}
  let request0 := { request with arrival_time := sv.clock.now.1 }
  match parse_request (sv.socks client_sock) request0 with
  | none => none
  | some (false, _, s1) =>
      let s2 := (send_line s1 (PROTOCOL_ERROR ++ " Malformed request".toList)).2
      some ({ sv with clock := sv.clock.now.2 }.set_sock client_sock s2)
  | some (true, request1, s1) =>
      let request2 := { request1 with client_id := client_sock }
      let request3 := materialize sv.file_storage request2
      some ({ sv with clock := sv.clock.now.2,
                      scheduler := sv.scheduler.add_request request3 }.set_sock client_sock s1)

/-! ## The worker loop seen from one request -/

/-- The number of iterations of the worker loop up to and including the first one that
appends to `completed_requests`, looking at no more than `fuel` iterations.  Under RR
every iteration makes one call of `process_request_chunk_timed`, and appends exactly
when that call returns `true`. -/
def calls_until_complete : Nat → Server P → Option Nat
  | 0, _ => none
  | fuel + 1, sv =>
      match worker_iteration sv with
      | Outcome.running sv1 =>
          if sv.completed_requests.length < sv1.completed_requests.length then some 1
          else (calls_until_complete fuel sv1).map (fun n => n + 1)
      | _ => none

/-- The successive calls of `process_request_chunk_timed` that the RR branch of
`worker_thread` makes on one request, from its first dispatch until a call returns
`true`.  Between two calls the request waits in the queue while the workers serve other
requests: `env i` is the server as the `i`-th call finds it (store, scheduler with its
quantum, clock, the other connections), except for the connection of the request, which
nobody else uses and which is carried over from the previous call.  As in
`worker_thread`, `start_time` is stamped before a call when it is 0 and `finish_time`
after the call that returns `true`.  The result is the number of the last call
(counting from `i + 1`), the request and the connection after it; `none` when more than
`fuel` calls are needed. -/
def rr_chunks (env : Nat → Server P) : Nat → Nat → Request → Sock → Option (Nat × Request × Sock)
  | 0, _, _, _ => none
  | fuel + 1, i, request, s =>
      let sv := (env i).set_sock request.client_id s
      let request1 := (stamp_start request sv).1
      let sv1 := (stamp_start request sv).2
      match process_request_chunk_timed sv1 request1 with
      | none => none
      | some (true, request2, sv2) =>
          some (i + 1, { request2 with finish_time := sv2.clock.now.1 },
            sv2.socks request.client_id)
      | some (false, request2, sv2) =>
          rr_chunks env fuel (i + 1) request2 (sv2.socks request.client_id)

/-! ## Vocabulary of the specification -/

/-- Every coming `send()` call on the connection succeeds (possibly partially). -/
def sends_ok (s : Sock) : Prop := ∀ k ∈ s.net, 0 < k

/-- The bytes of a sequence of lines on the wire: every line followed by a newline. -/
def wire_lines (lines : List Str) : List Char :=
  (lines.map (fun l => l ++ ['\n'])).flatten

/-- The size of a file as the specification defines it: the sum of `len(line) + 1`. -/
def payload_size (lines : List Str) : Nat :=
  (lines.map (fun l => l.length + 1)).sum

/-- The client's PUT message: `PUT f`, `SIZE get_file_size(L)`, the lines, `END`. -/
def put_message (f : Str) (L : List Str) : List Char :=
  wire_lines ([PROTOCOL_PUT ++ ' ' :: f, PROTOCOL_SIZE ++ ' ' :: to_string (get_file_size L)]
    ++ L ++ [PROTOCOL_END])

/-- The client's GET message: the line `GET f`. -/
def get_message (f : Str) : List Char :=
  wire_lines [PROTOCOL_GET ++ ' ' :: f]

/-- The successful GET response: `OK`, `SIZE N`, the lines, `END`. -/
def get_response (N : Nat) (L : List Str) : List Char :=
  wire_lines ([PROTOCOL_OK, PROTOCOL_SIZE ++ ' ' :: to_string N] ++ L ++ [PROTOCOL_END])

/-- The request that `parse_request` builds from the PUT message for `f` and `L`. -/
def put_request (r : Request) (f : Str) (L : List Str) : Request :=
  { r with type := RequestType.PUT, filename := f, file_size := get_file_size L, file_lines := L }

/-- The request that `parse_request` builds from the GET message for `f`. -/
def get_request (r : Request) (f : Str) : Request :=
  { r with type := RequestType.GET, filename := f }

/-- The lines `OK` and `SIZE N` that open a successful GET response. -/
def get_header (N : Nat) : List Char :=
  wire_lines [PROTOCOL_OK, PROTOCOL_SIZE ++ ' ' :: to_string N]

/-- The request that the acceptor submits for `GET f` on connection `fd`, stamped `t`:
the payload is copied from the store, and a missing file gives size 0 and no line. -/
def admitted_get (file_storage : Store) (f : Str) (fd : Int) (t : Int) : Request :=
  match map_find file_storage f with
  | some lines =>
      { type := RequestType.GET, filename := f, file_size := get_file_size lines,
        file_lines := lines, client_id := fd, arrival_time := t }
  | none => { type := RequestType.GET, filename := f, file_size := 0, client_id := fd,
              arrival_time := t }

/-- The lines found in the store under `f`, none if the file is absent. -/
def stored_lines (file_storage : Store) (f : Str) : List Str :=
  (map_find file_storage f).getD []

/-! ## Sequences of scheduler calls -/

/-- A call made on the scheduler object by the acceptor, a worker or the signal handler. -/
inductive Call where
  | add_request : Request → Call
  | requeue_request : Request → Call
  | get_next_request : Call
  | signal_shutdown : Call

/-- One call on a scheduler with the given methods: the state afterwards and the request
returned, if the call is a `get_next_request` that returns one.  A `get_next_request`
that would block is not made: the sequence is sequential and nothing could wake it up. -/
def call_with {σ : Type} (add requeue : σ → Request → σ) (next : σ → Dispatch σ)
    (shut : σ → σ) (s : σ) : Call → σ × Option Request
  | Call.add_request req => (add s req, none)
  | Call.requeue_request req => (requeue s req, none)
  | Call.signal_shutdown => (shut s, none)
  | Call.get_next_request =>
      match next s with
      | Dispatch.request req s1 => (s1, some req)
      | _ => (s, none)

/-- A sequence of calls: the final state and the requests returned, in order. -/
def run_calls {σ : Type} (call : σ → Call → σ × Option Request) : σ → List Call → σ × List Request
  | s, [] => (s, [])
  | s, c :: cs =>
      match call s c with
      | (s1, none) => run_calls call s1 cs
      | (s1, some req) => ((run_calls call s1 cs).1, req :: (run_calls call s1 cs).2)

/-- Calls on an `FCFSScheduler`; the class has no `requeue_request`. -/
def FCFSScheduler.call : FCFSScheduler → Call → FCFSScheduler × Option Request :=
  call_with FCFSScheduler.add_request (fun s _ => s) FCFSScheduler.get_next_request
    FCFSScheduler.signal_shutdown

/-- Calls on an `SJFScheduler`; the class has no `requeue_request`. -/
def SJFScheduler.call : SJFScheduler P → Call → SJFScheduler P × Option Request :=
  call_with SJFScheduler.add_request (fun s _ => s) SJFScheduler.get_next_request
    SJFScheduler.signal_shutdown

/-- Calls on an `RRScheduler`. -/
def RRScheduler.call : RRScheduler → Call → RRScheduler × Option Request :=
  call_with RRScheduler.add_request RRScheduler.requeue_request RRScheduler.get_next_request
    RRScheduler.signal_shutdown

/-- Calls on the scheduler object of the server. -/
def AnyScheduler.call : AnyScheduler P → Call → AnyScheduler P × Option Request :=
  call_with AnyScheduler.add_request AnyScheduler.requeue_request AnyScheduler.get_next_request
    AnyScheduler.signal_shutdown

/-- The requests passed to `add_request` by a sequence of calls. -/
def added : List Call → List Request
  | [] => []
  | Call.add_request req :: cs => req :: added cs
  | _ :: cs => added cs

/-- The content of the ready structure of the scheduler's policy. -/
def AnyScheduler.ready (sch : AnyScheduler P) : Multiset Request :=
  match sch with
  | AnyScheduler.FCFS s => (s.request_queue : Multiset Request)
  | AnyScheduler.SJF s => P.elems s.sjf_queue
  | AnyScheduler.RR s => (s.rr_queue : Multiset Request)

/-- The order of `SJFComparator`: `a` is not served after `b` on account of its size. -/
def size_le (a b : Request) : Prop := a.file_size ≤ b.file_size

instance size_le_decidable : DecidableRel size_le :=
  fun a b => inferInstanceAs (Decidable (a.file_size ≤ b.file_size))

instance size_le_total : IsTotal Request size_le :=
  ⟨fun a b => Nat.le_total a.file_size b.file_size⟩

instance size_le_trans : IsTrans Request size_le :=
  ⟨fun _ _ _ h1 h2 => Nat.le_trans h1 h2⟩

/-- A priority queue that meets the contract: a list kept sorted by `file_size`, smallest
first, a new element going before the elements of the same size. -/
def listPQ : PriorityQueue Request SJFComparator where
  Q := { l : List Request // l.Sorted size_le }
  emp := ⟨[], List.sorted_nil⟩
  is_empty q := q.1.isEmpty
  push q x := ⟨q.1.orderedInsert size_le x, q.2.orderedInsert x q.1⟩
  top q := q.1.head?
  pop q := ⟨q.1.tail, q.2.tail⟩
  elems q := (q.1 : Multiset Request)
  elems_emp := rfl
  is_empty_iff q := by
    cases h : q.1 <;> simp [h]
  elems_push q x := by
    simpa using Multiset.coe_eq_coe.2 (List.perm_orderedInsert size_le x q.1)
  top_pop q hq := by
    obtain ⟨l, hl⟩ := q
    cases l with
    | nil => simp at hq
    | cons a t =>
      refine ⟨a, rfl, by simp, ?_⟩
      intro y hy
      have hy2 : y = a ∨ y ∈ t := by simpa using hy
      have hle : a.file_size ≤ y.file_size := by
        rcases hy2 with rfl | hy2
        · exact le_refl _
        · exact List.rel_of_sorted_cons hl y hy2
      simp [SJFComparator, hle]

/-! ## Concrete servers used as examples -/

/-- A GET request for a one-line file (`K = 1`), as the acceptor submits it. -/
def one_line_get : Request :=
  { type := RequestType.GET, filename := "a".toList, file_size := 2,
    file_lines := ["a".toList], client_id := 4 }

/-- An RR server with quantum 1 ms whose queue holds `one_line_get`, on a clock that
advances by 1 ms from one reading to the next. -/
def slow_clock_server : Server listPQ :=
  { scheduler := AnyScheduler.RR { quantum := 1, rr_queue := [one_line_get] }
    clock := { time := fun n => (n + 1) * 1000000 }
    socks := fun _ => {} }

/-- An RR server with an empty store and the connection `4` on which the client has sent
`GET nope`. -/
def missing_file_server : Server listPQ :=
  { scheduler := AnyScheduler.RR { quantum := 10 }
    clock := { time := fun n => n + 1 }
    socks := fun _ => { inp := "GET nope\n".toList } }

/-- The bytes written to connection `fd` once the acceptor has admitted the request
waiting on it and a worker has run one iteration of its loop. -/
def admit_and_serve (sv : Server P) (fd : Int) : Option (List Char) :=
  match acceptor_iteration sv fd with
  | none => none
  | some sv1 =>
      match worker_iteration sv1 with
      | Outcome.running sv2 => some (sv2.socks fd).out
      | _ => none

/-- An FCFS server with the connection `4` on which the client has sent `DELETE a.txt`. -/
def delete_server : Server listPQ :=
  { scheduler := AnyScheduler.FCFS {}
    clock := { time := fun n => n + 1 }
    socks := fun _ => { inp := "DELETE a.txt\n".toList } }

/-- An RR server whose store holds the file `a` (lines `hello`, `world`), with the
connection `4` on which the client has sent `GET a`. -/
def rr_get_server : Server listPQ :=
  { file_storage := [("a".toList, ["hello".toList, "world".toList])]
    scheduler := AnyScheduler.RR { quantum := 10 }
    clock := { time := fun n => n + 1 }
    socks := fun _ => { inp := get_message "a".toList } }

/-- The stopping condition of `recv_file` as the specification words it, at the prefix
of length `k` of the incoming lines `xs`, for the declared size `n` and `received` bytes
counted before `xs`: either the byte count of the prefix has reached `n`, or it is below
`n` and the line that follows the prefix is `END`. -/
def stops_at (n received : Nat) (xs : List Str) (k : Nat) : Prop :=
  n ≤ received + payload_size (xs.take k) ∨
    (received + payload_size (xs.take k) < n ∧ xs.get? k = some PROTOCOL_END)

instance stops_at_decidable (n received : Nat) (xs : List Str) (k : Nat) :
    Decidable (stops_at n received xs k) :=
  inferInstanceAs (Decidable (_ ∨ _))

/-- The first whitespace-delimited token of a line (empty if there is none). -/
def first_token (line : Str) : Str := (extract_token line).1

/-- The second whitespace-delimited token of a line (empty if there is none). -/
def second_token (line : Str) : Str := (extract_token (extract_token line).2).1

/-- The size that `parse_request` reads from a second line whose first token is `SIZE`:
`old` is the value `file_size` held before. -/
def declared_size (size_line : Str) (old : Nat) : Nat :=
  extract_size_t (extract_token size_line).2 old

/-- The request that one iteration of the acceptor passes to `add_request`: `none` when
the request is rejected (or `parse_request` runs out of fuel). -/
def acceptor_submits (sv : Server P) (client_sock : Int) : Option Request :=
  match parse_request (sv.socks client_sock) { arrival_time := sv.clock.now.1 } with
  | some (true, request1, _) =>
      some (materialize sv.file_storage { request1 with client_id := client_sock })
  | _ => none

/-- An FCFS server with the connection `4` on which the client has sent a PUT that
declares 100 bytes and sends the single line `hi`. -/
def short_put_server : Server listPQ :=
  { scheduler := AnyScheduler.FCFS {}
    clock := { time := fun n => n + 1 }
    socks := fun _ => { inp := "PUT a\nSIZE 100\nhi\nEND\n".toList } }

/-- The reply to `GET f` that the store `file_storage` determines: `ERROR File not
found` when the file is absent, otherwise `OK`, `SIZE n`, the stored lines and `END`. -/
def store_reply (file_storage : Store) (f : Str) : List Char :=
  match map_find file_storage f with
  | none => wire_lines [PROTOCOL_ERROR ++ " File not found".toList]
  | some lines => get_response (get_file_size lines) lines

/-- An SJF server whose store holds the file `a` with three lines; the client of
connection `4` has sent `GET a`, the client of every other connection a PUT that
replaces `a` by the single line `x`. -/
def overwrite_server : Server listPQ :=
  { file_storage := [("a".toList, ["one".toList, "two".toList, "three".toList])]
    scheduler := AnyScheduler.SJF {}
    clock := { time := fun n => n + 1 }
    socks := fun fd =>
      if fd = 4 then { inp := "GET a\n".toList } else { inp := "PUT a\nSIZE 2\nx\nEND\n".toList } }

/-- The run of `overwrite_server` in which the acceptor admits the GET of connection
`4`, then the PUT of connection `5`, and one worker then serves both requests. -/
def overwrite_run : Option (Server listPQ) :=
  match acceptor_iteration overwrite_server 4 with
  | none => none
  | some sv1 =>
      match acceptor_iteration sv1 5 with
      | none => none
      | some sv2 =>
          match worker_thread 2 sv2 with
          | Outcome.running sv3 => some sv3
          | _ => none

/-! ## C18: the cursor of a chunk -/

/-- The loop of `process_request_chunk_timed` once more, with the access
`file_lines[lines_processed]` as the unchecked `operator[]` of the source: an index
outside the vector ends the run with `Except.error` of that index.  `none`: out of
fuel. -/
def chunk_loop_unchecked (quantum_ns chunk_start_time : Int) :
    Nat → Request → Sock → Clock → Option (Except Nat (Bool × Request × Sock × Clock))
  | fuel, request, s, clock =>
      if request.lines_processed ≥ request.file_lines.length then
        some (Except.ok (true, request, (send_line s PROTOCOL_END).2, clock))
      else
        match fuel with
        | 0 => none
        | fuel1 + 1 =>
            match request.file_lines.get? request.lines_processed with
            | none => some (Except.error request.lines_processed)
            | some line_to_send =>
                match send_line s line_to_send with
                | (false, s1) => some (Except.ok (true, request, s1, clock))
                | (true, s1) =>
                    let request1 :=
                      { request with lines_processed := request.lines_processed + 1 }
                    let (now, clock1) := clock.now
                    let elapsed_ns := now - chunk_start_time
                    if elapsed_ns ≥ quantum_ns then some (Except.ok (false, request1, s1, clock1))
                    else chunk_loop_unchecked quantum_ns chunk_start_time fuel1 request1 s1 clock1

/-! ## The server over time -/

/-- Something that happens on the server: the body of the acceptor's loop runs for the
connection that `accept` returned, the body of a worker's loop runs, or the signal
handler calls `signal_shutdown`. -/
inductive Event where
  | accept : Int → Event
  | work : Event
  | signal : Event

/-- The server after one event.  `none`: an inner loop does not end. -/
def Server.step (sv : Server P) : Event → Option (Server P)
  | Event.accept client_sock => acceptor_iteration sv client_sock
  | Event.work =>
      match worker_iteration sv with
      | Outcome.running sv1 => some sv1
      | Outcome.exited sv1 => some sv1
      | Outcome.blocked sv1 => some sv1
      | Outcome.diverged => none
  | Event.signal => some { sv with scheduler := sv.scheduler.signal_shutdown }

/-- The server after a sequence of events. -/
def Server.run : Server P → List Event → Option (Server P)
  | sv, [] => some sv
  | sv, e :: es =>
      match sv.step e with
      | none => none
      | some sv1 => Server.run sv1 es

/-- The run of `overwrite_server` under the scheduler `sch` in which the acceptor admits
the PUT of connection `5`, then the GET of connection `4`, and a worker's loop body then
runs twice. -/
def overwrite_events (sch : AnyScheduler listPQ) : Option (Server listPQ) :=
  ({ overwrite_server with scheduler := sch } : Server listPQ).run
    [Event.accept 5, Event.accept 4, Event.work, Event.work]

/-! # Theorems -/

/-! ## The wire codec -/

theorem send_all_ok (net : List Nat) : ∀ (out msg : List Char), (∀ k ∈ net, 0 < k) →
    ∃ net1, send_all net out msg = (true, out ++ msg, net1) ∧ ∀ k ∈ net1, 0 < k := by
  induction net with
  | nil =>
    intro out msg _
    cases msg with
    | nil => exact ⟨[], by simp [send_all], by simp⟩
    | cons c m => exact ⟨[], by simp [send_all], by simp⟩
  | cons k net ih =>
    intro out msg h
    cases msg with
    | nil => exact ⟨k :: net, by simp [send_all], h⟩
    | cons c m =>
      have hk : 0 < k := h k (by simp)
      obtain ⟨j, rfl⟩ : ∃ j, k = j + 1 := ⟨k - 1, by omega⟩
      obtain ⟨net1, h1, h2⟩ := ih (out ++ (c :: m).take (j + 1)) ((c :: m).drop (j + 1))
        (fun x hx => h x (by simp [hx]))
      refine ⟨net1, ?_, h2⟩
      rw [send_all, h1, List.append_assoc, List.take_append_drop]

theorem send_ok (s : Sock) (msg : List Char) (h : sends_ok s) :
    ∃ s1, s.send msg = (true, s1) ∧ s1.out = s.out ++ msg ∧ s1.inp = s.inp ∧ sends_ok s1 := by
  obtain ⟨net1, h1, h2⟩ := send_all_ok s.net s.out msg h
  exact ⟨{ s with out := s.out ++ msg, net := net1 }, by simp [Sock.send, h1], rfl, rfl, h2⟩

theorem send_line_ok (s : Sock) (m : Str) (h : sends_ok s) :
    ∃ s1, send_line s m = (true, s1) ∧ s1.out = s.out ++ (m ++ ['\n']) ∧ s1.inp = s.inp ∧
      sends_ok s1 :=
  send_ok s _ h

theorem make_packet_eq (lines : List Str) : make_packet lines = wire_lines lines := by
  have h : ∀ (acc : List Char),
      lines.foldl (fun packet line => packet ++ (line ++ ['\n'])) acc = acc ++ wire_lines lines := by
    induction lines with
    | nil => intro acc; simp [wire_lines]
    | cons l ls ih => intro acc; simp [wire_lines, ih, List.append_assoc] at *
  simpa [make_packet] using h []

theorem wire_lines_append (a b : List Str) : wire_lines (a ++ b) = wire_lines a ++ wire_lines b := by
  simp [wire_lines]

theorem send_file_loop_ok (p : Nat) (hp : 1 ≤ p) : ∀ (fuel : Nat) (s : Sock) (lines : List Str),
    lines.length ≤ fuel → sends_ok s →
    ∃ s1, send_file_loop p fuel s lines = some (true, s1) ∧
      s1.out = s.out ++ wire_lines lines ∧ s1.inp = s.inp ∧ sends_ok s1 := by
  intro fuel
  induction fuel with
  | zero =>
    intro s lines hl hs
    cases lines with
    | nil => exact ⟨s, by simp [send_file_loop], by simp [wire_lines], rfl, hs⟩
    | cons l ls => simp at hl
  | succ n ih =>
    intro s lines hl hs
    cases lines with
    | nil => exact ⟨s, by simp [send_file_loop], by simp [wire_lines], rfl, hs⟩
    | cons l ls =>
      obtain ⟨s1, h1, h2, h3, h4⟩ := send_ok s (make_packet ((l :: ls).take p)) hs
      have hlen : ((l :: ls).drop p).length ≤ n := by
        simp only [List.length_drop, List.length_cons] at hl ⊢
        omega
      obtain ⟨s2, g1, g2, g3, g4⟩ := ih s1 ((l :: ls).drop p) hlen h4
      refine ⟨s2, ?_, ?_, by rw [g3, h3], g4⟩
      · simp only [send_file_loop, h1, g1]
      · rw [g2, h2, make_packet_eq, List.append_assoc, ← wire_lines_append, List.take_append_drop]

theorem send_file_ok (s : Sock) (lines : List Str) (p : Nat) (hp : 1 ≤ p) (hs : sends_ok s) :
    ∃ s1, send_file s lines p = some (true, s1) ∧
      s1.out = s.out ++ wire_lines (lines ++ [PROTOCOL_END]) ∧ s1.inp = s.inp ∧ sends_ok s1 := by
  obtain ⟨s1, h1, h2, h3, h4⟩ := send_file_loop_ok p hp lines.length s lines (le_refl _) hs
  obtain ⟨s2, g1, g2, g3, g4⟩ := send_line_ok s1 PROTOCOL_END h4
  refine ⟨s2, ?_, ?_, by rw [g3, h3], g4⟩
  · simp only [send_file, h1, g1]
  · rw [g2, h2, wire_lines_append]; simp [wire_lines]

theorem get_file_size_eq (lines : List Str) : get_file_size lines = payload_size lines := by
  have h : ∀ (acc : Nat),
      lines.foldl (fun size line => size + (line.length + 1)) acc = acc + payload_size lines := by
    induction lines with
    | nil => intro acc; simp [payload_size]
    | cons l ls ih => intro acc; simp only [List.foldl_cons, ih, payload_size, List.map_cons, List.sum_cons]; omega
  simpa [get_file_size] using h 0

theorem recv_line_loop_line (line rest : List Char) (h : '\n' ∉ line) : ∀ acc : Str,
    recv_line_loop (line ++ '\n' :: rest) acc = (true, acc ++ line, rest) := by
  induction line with
  | nil => intro acc; simp [recv_line_loop]
  | cons c cs ih =>
    intro acc
    have hc : c ≠ '\n' := fun e => h (by simp [e])
    have hcs : '\n' ∉ cs := fun e => h (by simp [e])
    simp [recv_line_loop, hc, ih hcs]

theorem recv_line_line (s : Sock) (line rest : List Char) (h : '\n' ∉ line)
    (hs : s.inp = line ++ '\n' :: rest) :
    recv_line s = (true, line, { s with inp := rest }) := by
  simp [recv_line, hs, recv_line_loop_line line rest h]

theorem to_string_rev_digits : ∀ (fuel n : Nat), n < fuel →
    to_string_rev fuel n ≠ [] ∧ (∀ c ∈ to_string_rev fuel n, isdigit c = true) ∧
    (to_string_rev fuel n).foldr (fun c acc => acc * 10 + (c.toNat - 48)) 0 = n := by
  intro fuel
  induction fuel with
  | zero => intro n h; omega
  | succ k ih =>
    intro n h
    have hd : ∀ d, d < 10 → isdigit (digit_char d) = true ∧ (digit_char d).toNat - 48 = d := by
      decide
    by_cases hn : n < 10
    · simp [to_string_rev, hn, hd n hn]
    · have hlt : n / 10 < k := by omega
      obtain ⟨_, h2, h3⟩ := ih (n / 10) hlt
      have hm := hd (n % 10) (Nat.mod_lt _ (by decide))
      simp only [to_string_rev, hn, if_false]
      refine ⟨by simp, ?_, ?_⟩
      · intro c hc
        rcases List.mem_cons.1 hc with rfl | hc
        · exact hm.1
        · exact h2 c hc
      · simp only [List.foldr_cons, h3, hm.2]
        omega

theorem digits_value_reverse (l : List Char) :
    digits_value l.reverse = l.foldr (fun c acc => acc * 10 + (c.toNat - 48)) 0 := by
  simp [digits_value, List.foldl_reverse]

theorem to_string_spec (n : Nat) :
    to_string n ≠ [] ∧ (∀ c ∈ to_string n, isdigit c = true) ∧ digits_value (to_string n) = n := by
  obtain ⟨h1, h2, h3⟩ := to_string_rev_digits (n + 1) n (Nat.lt_succ_self n)
  refine ⟨by simpa [to_string] using h1, ?_, ?_⟩
  · intro c hc
    exact h2 c (by simpa [to_string] using hc)
  · rw [to_string, digits_value_reverse, h3]

theorem isdigit_facts (c : Char) (h : isdigit c = true) :
    isspace c = false ∧ c ≠ '-' ∧ c ≠ '+' := by
  simp only [isdigit, Bool.and_eq_true, decide_eq_true_eq] at h
  refine ⟨?_, ?_, ?_⟩
  · simp only [isspace, Bool.or_eq_false_iff, decide_eq_false_iff_not]
    refine ⟨⟨⟨⟨⟨?_, ?_⟩, ?_⟩, ?_⟩, ?_⟩, ?_⟩ <;> first | omega | (rintro rfl; revert h; decide)
  · rintro rfl; revert h; decide
  · rintro rfl; revert h; decide

theorem takeWhile_all {α : Type} (p : α → Bool) (l : List α) (h : ∀ c ∈ l, p c = true) :
    l.takeWhile p = l := by
  induction l with
  | nil => rfl
  | cons a l ih =>
    simp [List.takeWhile_cons, h a (by simp), ih (fun c hc => h c (by simp [hc]))]

theorem extract_size_t_to_string (n old : Nat) (hn : n ≤ SIZE_MAX) :
    extract_size_t (' ' :: to_string n) old = n := by
  obtain ⟨h1, h2, h3⟩ := to_string_spec n
  obtain ⟨c, t, hct⟩ := List.exists_cons_of_ne_nil h1
  have hc : isdigit c = true := h2 c (by simp [hct])
  obtain ⟨hsp, hm, hpl⟩ := isdigit_facts c hc
  have hdrop : (' ' :: to_string n).dropWhile isspace = c :: t := by
    have h0 : isspace ' ' = true := by decide
    rw [hct, List.dropWhile_cons, if_pos h0, List.dropWhile_cons, if_neg (by simp [hsp])]
  have htake : (c :: t).takeWhile isdigit = c :: t :=
    takeWhile_all _ _ (by rw [← hct]; exact h2)
  simp only [extract_size_t, hdrop, hm, hpl, or_self, if_false, htake]
  rw [← hct]
  simp [convert_size_t, h3, h1, Nat.not_lt.2 hn]

theorem not_newline_of_not_space (c : Char) (h : isspace c = false) : c ≠ '\n' := by
  rintro rfl; revert h; decide

theorem dropWhile_not_space (t rest : List Char) (ht : ∀ c ∈ t, isspace c = false)
    (hr : ∀ c r, rest = c :: r → isspace c = true) :
    (t ++ rest).takeWhile (fun c => !isspace c) = t ∧
    (t ++ rest).dropWhile (fun c => !isspace c) = rest := by
  induction t with
  | nil =>
    cases rest with
    | nil => simp
    | cons c r => simp [List.takeWhile_cons, List.dropWhile_cons, hr c r rfl]
  | cons a t ih =>
    have ha := ht a (by simp)
    have := ih (fun c hc => ht c (by simp [hc]))
    simp [List.takeWhile_cons, List.dropWhile_cons, ha, this.1, this.2]

theorem extract_token_token (t rest : List Char) (hne : t ≠ [])
    (ht : ∀ c ∈ t, isspace c = false) (hr : ∀ c r, rest = c :: r → isspace c = true) :
    extract_token (t ++ rest) = (t, rest) := by
  obtain ⟨a, u, rfl⟩ := List.exists_cons_of_ne_nil hne
  have ha := ht a (by simp)
  have hd : ((a :: u) ++ rest).dropWhile isspace = (a :: u) ++ rest := by
    rw [List.cons_append, List.dropWhile_cons, if_neg (by simp [ha])]
  have := dropWhile_not_space (a :: u) rest ht hr
  simp only [extract_token, hd, this.1, this.2]

theorem extract_token_space (s : List Char) : extract_token (' ' :: s) = extract_token s := by
  have h0 : isspace ' ' = true := by decide
  simp only [extract_token, List.dropWhile_cons, if_pos h0]

theorem payload_size_pos (l : Str) (ls : List Str) : 0 < payload_size (l :: ls) := by
  simp [payload_size]

theorem recv_file_loop_lines (size : Nat) (rest : List Char) : ∀ (L : List Str) (fuel : Nat)
    (s : Sock) (received : Nat) (lines : List Str),
    (∀ l ∈ L, '\n' ∉ l) → (∀ l ∈ L, l ≠ PROTOCOL_END) → L.length ≤ fuel →
    s.inp = wire_lines L ++ rest → received + payload_size L = size →
    recv_file_loop size fuel s received lines = some (true, lines ++ L, { s with inp := rest }) := by
  intro L
  induction L with
  | nil =>
    intro fuel s received lines _ _ _ hs hsz
    have : ¬ received < size := by simp [payload_size] at hsz; omega
    have hs2 : s = { s with inp := rest } := by
      cases s; simp [wire_lines] at hs; simp [hs]
    cases fuel <;> simp [recv_file_loop, this, ← hs2]
  | cons l L ih =>
    intro fuel s received lines hnl hend hfuel hs hsz
    have hlt : received < size := by
      have := payload_size_pos l L; omega
    have hrecv := recv_line_line s l (wire_lines L ++ rest) (hnl l (by simp))
      (by simp [hs, wire_lines])
    have hl : l ≠ PROTOCOL_END := hend l (by simp)
    obtain ⟨k, rfl⟩ : ∃ k, fuel = k + 1 := ⟨fuel - 1, by simp at hfuel; omega⟩
    have := ih k { s with inp := wire_lines L ++ rest } (received + (l.length + 1)) (lines ++ [l])
      (fun x hx => hnl x (by simp [hx])) (fun x hx => hend x (by simp [hx]))
      (by simpa using hfuel) rfl (by simp [payload_size] at hsz ⊢; omega)
    rw [recv_file_loop]
    simp only [hlt, if_true, hrecv, hl, if_false, this]
    simp

theorem wire_lines_length (L : List Str) : L.length ≤ (wire_lines L).length := by
  induction L with
  | nil => simp
  | cons l L ih => simp [wire_lines] at ih ⊢; omega

theorem recv_file_lines (s : Sock) (L : List Str) (rest : List Char)
    (hnl : ∀ l ∈ L, '\n' ∉ l) (hend : ∀ l ∈ L, l ≠ PROTOCOL_END)
    (hs : s.inp = wire_lines L ++ rest) :
    recv_file s (get_file_size L) = some (true, L, { s with inp := rest }) := by
  have hfuel : L.length ≤ s.inp.length := by
    rw [hs, List.length_append]; have := wire_lines_length L; omega
  have := recv_file_loop_lines (get_file_size L) rest L s.inp.length s 0 [] hnl hend hfuel hs
    (by rw [get_file_size_eq]; omega)
  simpa [recv_file] using this

/-! ## The store -/

theorem map_find_assign (st : Store) (f g : Str) (L : List Str) :
    map_find (map_assign st f L) g = if g = f then some L else map_find st g := by
  induction st with
  | nil =>
    by_cases h : g = f
    · simp [map_assign, map_find, h]
    · have h2 : ¬ f = g := fun e => h e.symm
      simp [map_assign, map_find, h, h2]
  | cons kv rest ih =>
    obtain ⟨k, v⟩ := kv
    by_cases hk : k = f
    · subst hk
      by_cases h : g = k
      · simp [map_assign, map_find, h]
      · have h2 : ¬ k = g := fun e => h e.symm
        simp [map_assign, map_find, h, h2]
    · by_cases hg : k = g
      · have h : ¬ g = f := fun e => hk (hg.trans e)
        simp [map_assign, map_find, hk, hg, h]
      · simp [map_assign, map_find, hk, hg, ih]

theorem retrieve_file_store_file (st : Store) (f g : Str) (L lines : List Str) :
    retrieve_file (store_file st f L) g lines =
      if g = f then (true, L) else retrieve_file st g lines := by
  by_cases h : g = f <;> simp [retrieve_file, store_file, map_find_assign, h]

/-- C2 (the store is a map with whole-value overwrite).  For every store, names `f` and
`g` and lines `L`: after `store_file(f, L)`, `retrieve_file(g)` succeeds with exactly
`L` when `g = f` and otherwise returns what it returned before (same flag, same lines);
and `store_file(f, L1); store_file(f, L2); retrieve_file(f)` yields `L2`. -/
theorem store_file_retrieve_file (st : Store) (f g : Str) (L L1 L2 lines : List Str) :
    retrieve_file (store_file st f L) g lines
      = (if g = f then (true, L) else retrieve_file st g lines) ∧
    retrieve_file (store_file (store_file st f L1) f L2) f lines = (true, L2) := by
  refine ⟨retrieve_file_store_file st f g L lines, ?_⟩
  rw [retrieve_file_store_file]
  simp

theorem protocol_token (t : Str) (h : t = PROTOCOL_PUT ∨ t = PROTOCOL_GET ∨ t = PROTOCOL_SIZE) :
    t ≠ [] ∧ (∀ c ∈ t, isspace c = false) ∧ '\n' ∉ t := by
  rcases h with rfl | rfl | rfl <;> decide

theorem extract_token_command (t f : Str)
    (h : t = PROTOCOL_PUT ∨ t = PROTOCOL_GET ∨ t = PROTOCOL_SIZE) :
    extract_token (t ++ ' ' :: f) = (t, ' ' :: f) := by
  obtain ⟨h1, h2, _⟩ := protocol_token t h
  refine extract_token_token t (' ' :: f) h1 h2 ?_
  intro c r hcr
  cases hcr
  decide

theorem extract_token_filename (f : Str) (hne : f ≠ []) (hf : ∀ c ∈ f, isspace c = false) :
    extract_token (' ' :: f) = (f, []) := by
  rw [extract_token_space]
  have := extract_token_token f [] hne hf (by intro c r h; cases h)
  simpa using this

theorem parse_request_get (s : Sock) (req : Request) (f : Str) (rest : List Char)
    (hne : f ≠ []) (hf : ∀ c ∈ f, isspace c = false)
    (hs : s.inp = get_message f ++ rest) :
    parse_request s req =
      some (true, { req with type := RequestType.GET, filename := f }, { s with inp := rest }) := by
  have hnl : '\n' ∉ PROTOCOL_GET ++ ' ' :: f := by
    intro h
    rcases List.mem_append.1 h with h | h
    · revert h; decide
    · rcases List.mem_cons.1 h with h | h
      · revert h; decide
      · exact not_newline_of_not_space _ (hf _ h) rfl
  have hrecv := recv_line_line s (PROTOCOL_GET ++ ' ' :: f) rest hnl
    (by simp [hs, get_message, wire_lines])
  have hne2 : PROTOCOL_GET ≠ PROTOCOL_PUT := by decide
  simp only [parse_request, hrecv, extract_token_command _ f (Or.inr (Or.inl rfl)),
    extract_token_filename f hne hf, hne2, if_false, if_true]

theorem parse_request_put (s : Sock) (req : Request) (f : Str) (L : List Str)
    (hne : f ≠ []) (hf : ∀ c ∈ f, isspace c = false)
    (hnl : ∀ l ∈ L, '\n' ∉ l) (hend : ∀ l ∈ L, l ≠ PROTOCOL_END)
    (hsz : get_file_size L ≤ SIZE_MAX)
    (hs : s.inp = put_message f L) :
    parse_request s req =
      some (true, { req with type := RequestType.PUT, filename := f,
                             file_size := get_file_size L, file_lines := L },
        { s with inp := wire_lines [PROTOCOL_END] }) := by
  obtain ⟨d1, d2, d3⟩ := to_string_spec (get_file_size L)
  have hnl1 : '\n' ∉ PROTOCOL_PUT ++ ' ' :: f := by
    intro h
    rcases List.mem_append.1 h with h | h
    · revert h; decide
    · rcases List.mem_cons.1 h with h | h
      · revert h; decide
      · exact not_newline_of_not_space _ (hf _ h) rfl
  have hnl2 : '\n' ∉ PROTOCOL_SIZE ++ ' ' :: to_string (get_file_size L) := by
    intro h
    rcases List.mem_append.1 h with h | h
    · revert h; decide
    · rcases List.mem_cons.1 h with h | h
      · revert h; decide
      · exact not_newline_of_not_space _ (isdigit_facts _ (d2 _ h)).1 rfl
  have hrecv1 := recv_line_line s (PROTOCOL_PUT ++ ' ' :: f)
    (wire_lines ([PROTOCOL_SIZE ++ ' ' :: to_string (get_file_size L)] ++ L ++ [PROTOCOL_END]))
    hnl1 (by simp [hs, put_message, wire_lines])
  have hrecv2 := recv_line_line
    { s with inp := wire_lines ([PROTOCOL_SIZE ++ ' ' :: to_string (get_file_size L)] ++ L ++ [PROTOCOL_END]) }
    (PROTOCOL_SIZE ++ ' ' :: to_string (get_file_size L))
    (wire_lines L ++ wire_lines [PROTOCOL_END]) hnl2 (by simp [wire_lines])
  have hfile := recv_file_lines
    { s with inp := wire_lines L ++ wire_lines [PROTOCOL_END] } L (wire_lines [PROTOCOL_END])
    hnl hend rfl
  have hsne : PROTOCOL_SIZE ≠ [] := by decide
  simp only [parse_request, hrecv1, extract_token_command _ f (Or.inl rfl),
    extract_token_filename f hne hf, if_true, hrecv2,
    extract_token_command _ (to_string (get_file_size L)) (Or.inr (Or.inr rfl)), hsne, if_false,
    extract_size_t_to_string _ _ hsz, ne_eq, not_true_eq_false, hfile]

theorem handle_get_found (st : Store) (p : Nat) (s : Sock) (req : Request) (L : List Str)
    (hp : 1 ≤ p) (hs : sends_ok s) (hfind : map_find st req.filename = some L) :
    ∃ s1, handle_get st p s req = some (true, s1) ∧
      s1.out = s.out ++ get_response (get_file_size L) L ∧ s1.inp = s.inp ∧ sends_ok s1 := by
  obtain ⟨s1, a1, a2, a3, a4⟩ := send_line_ok s PROTOCOL_OK hs
  obtain ⟨s2, b1, b2, b3, b4⟩ :=
    send_line_ok s1 (PROTOCOL_SIZE ++ " ".toList ++ to_string (get_file_size L)) a4
  obtain ⟨s3, c1, c2, c3, c4⟩ := send_file_ok s2 L p hp b4
  refine ⟨s3, ?_, ?_, by rw [c3, b3, a3], c4⟩
  · simp only [handle_get, retrieve_file, hfind, a1, b1, c1]
  · rw [c2, b2, a2]
    simp [get_response, wire_lines]

/-! ## C1: PUT/GET round trip -/

/-- C1 (PUT/GET round trip).  For a filename `f` that is one non-empty token without
whitespace, newline-free lines `L` none of which is `END` (whose size fits `size_t`) and
`packet_size >= 1`: `parse_request` reads the client's PUT message into the request
(`PUT`, `f`, `get_file_size L`, `L`); `handle_put` answers `OK`; `parse_request` reads
`GET f`; with all sends succeeding `handle_get` on the store left by `handle_put` succeeds
and writes `OK`, `SIZE get_file_size(L)`, the lines of `L` in order and `END`; and
`recv_file` with the announced size on the body of that response returns exactly `L`. -/
theorem put_get_round_trip (f : Str) (L : List Str) (packet_size : Nat) (st : Store)
    (cp cg : Sock) (rp rg : Request)
    (hne : f ≠ []) (hf : ∀ c ∈ f, isspace c = false)
    (hnl : ∀ l ∈ L, '\n' ∉ l) (hend : ∀ l ∈ L, l ≠ PROTOCOL_END)
    (hsz : get_file_size L ≤ SIZE_MAX) (hp : 1 ≤ packet_size)
    (hcp : cp.inp = put_message f L) (hcpok : sends_ok cp)
    (hcg : cg.inp = get_message f) (hcgok : sends_ok cg) :
    parse_request cp rp
        = some (true, put_request rp f L, { cp with inp := wire_lines [PROTOCOL_END] }) ∧
    (handle_put st { cp with inp := wire_lines [PROTOCOL_END] } (put_request rp f L)).2.1 = true ∧
    (handle_put st { cp with inp := wire_lines [PROTOCOL_END] } (put_request rp f L)).2.2.out
        = cp.out ++ wire_lines [PROTOCOL_OK] ∧
    parse_request cg rg = some (true, get_request rg f, { cg with inp := [] }) ∧
    (handle_get (handle_put st { cp with inp := wire_lines [PROTOCOL_END] } (put_request rp f L)).1
        packet_size { cg with inp := [] } (get_request rg f)).map (fun r => (r.1, r.2.out))
        = some (true, cg.out ++ get_response (get_file_size L) L) ∧
    get_response (get_file_size L) L
        = wire_lines [PROTOCOL_OK, PROTOCOL_SIZE ++ ' ' :: to_string (get_file_size L)]
          ++ wire_lines (L ++ [PROTOCOL_END]) ∧
    (recv_file { inp := wire_lines (L ++ [PROTOCOL_END]) } (get_file_size L)).map
        (fun r => (r.1, r.2.1)) = some (true, L) := by
  have hput := parse_request_put cp rp f L hne hf hnl hend hsz hcp
  have hget := parse_request_get cg rg f [] hne hf (by simpa using hcg)
  obtain ⟨s1, a1, a2, _, _⟩ :=
    send_line_ok { cp with inp := wire_lines [PROTOCOL_END] } PROTOCOL_OK hcpok
  have hfind : map_find (store_file st f L) (get_request rg f).filename = some L := by
    simp [store_file, map_find_assign, get_request]
  obtain ⟨s2, b1, b2, _, _⟩ :=
    handle_get_found (store_file st f L) packet_size { cg with inp := [] } (get_request rg f) L
      hp hcgok hfind
  have hrecv := recv_file_lines { inp := wire_lines (L ++ [PROTOCOL_END]) } L
    (wire_lines [PROTOCOL_END]) hnl hend (by simp [wire_lines])
  refine ⟨hput, ?_, ?_, hget, ?_, ?_, ?_⟩
  · simp [handle_put, a1]
  · simp only [handle_put, a1, a2]
    simp [wire_lines]
  · have hst : (handle_put st { cp with inp := wire_lines [PROTOCOL_END] }
        (put_request rp f L)).1 = store_file st f L := rfl
    rw [hst, b1]
    simp [b2]
  · simp [get_response, wire_lines]
  · rw [hrecv]; rfl

/-- Witness of C1: the file `a.txt` with the lines `hello` and `world`. -/
theorem put_get_round_trip_witness :
    parse_request { inp := put_message "a.txt".toList ["hello".toList, "world".toList] } {}
        = some (true, put_request {} "a.txt".toList ["hello".toList, "world".toList],
            { inp := wire_lines [PROTOCOL_END] }) ∧
    (handle_get (handle_put [] { inp := wire_lines [PROTOCOL_END] }
        (put_request {} "a.txt".toList ["hello".toList, "world".toList])).1
        1 { inp := [] } (get_request {} "a.txt".toList)).map (fun r => (r.1, r.2.out))
        = some (true, "OK\nSIZE 12\nhello\nworld\nEND\n".toList) := by
  have h := put_get_round_trip "a.txt".toList ["hello".toList, "world".toList] 1 []
    { inp := put_message "a.txt".toList ["hello".toList, "world".toList] }
    { inp := get_message "a.txt".toList } {} {}
    (by decide) (by decide) (by decide) (by decide) (by decide) (by decide) rfl
    (by simp [sends_ok]) rfl (by simp [sends_ok])
  exact ⟨h.1, h.2.2.2.2.1⟩

/-! ## Sequences of scheduler calls -/

theorem run_calls_append {σ : Type} (call : σ → Call → σ × Option Request) :
    ∀ (a b : List Call) (s : σ),
    run_calls call s (a ++ b) =
      ((run_calls call (run_calls call s a).1 b).1,
        (run_calls call s a).2 ++ (run_calls call (run_calls call s a).1 b).2) := by
  intro a
  induction a with
  | nil => intro b s; simp [run_calls]
  | cons c cs ih =>
    intro b s
    simp only [List.cons_append, run_calls]
    rcases h : call s c with ⟨s1, _ | req⟩
    · simp [ih]
    · simp [ih]

/-! ## C5: FCFS dispatch order -/

theorem fcfs_get_next_request (s : FCFSScheduler) :
    s.get_next_request =
      match s.request_queue with
      | [] => if s.shutdown then Dispatch.null else Dispatch.blocked
      | req :: rest => Dispatch.request req { s with request_queue := rest } := by
  rcases h : s.request_queue with _ | ⟨req, rest⟩ <;>
    cases hs : s.shutdown <;> simp [FCFSScheduler.get_next_request, h, hs]

theorem fcfs_call_queue (s : FCFSScheduler) (c : Call) :
    (match (s.call c).2 with | none => [] | some r => [r]) ++ (s.call c).1.request_queue
      = s.request_queue ++ added [c] := by
  cases c with
  | add_request req => simp [FCFSScheduler.call, call_with, FCFSScheduler.add_request, Scheduler.add_request, added]
  | requeue_request req => simp [FCFSScheduler.call, call_with, added]
  | signal_shutdown => simp [FCFSScheduler.call, call_with, FCFSScheduler.signal_shutdown, Scheduler.signal_shutdown, added]
  | get_next_request =>
    simp only [FCFSScheduler.call, call_with, fcfs_get_next_request]
    rcases h : s.request_queue with _ | ⟨req, rest⟩
    · cases hs : s.shutdown <;> simp [h, added]
    · simp [added]

theorem added_cons (c : Call) (cs : List Call) : added (c :: cs) = added [c] ++ added cs := by
  cases c <;> simp [added]

theorem fcfs_run_queue : ∀ (calls : List Call) (s : FCFSScheduler),
    (run_calls FCFSScheduler.call s calls).2 ++ (run_calls FCFSScheduler.call s calls).1.request_queue
      = s.request_queue ++ added calls := by
  intro calls
  induction calls with
  | nil => intro s; simp [run_calls, added]
  | cons c cs ih =>
    intro s
    have h1 := fcfs_call_queue s c
    rw [added_cons, ← List.append_assoc, ← h1]
    simp only [run_calls]
    rcases h : s.call c with ⟨s1, _ | req⟩
    · simp [ih s1]
    · simp [ih s1]

/-- C5 (FCFS dispatch order).  For every FCFS scheduler state and every sequence of
calls (`add_request`, `get_next_request` that returns, `signal_shutdown`), the requests
returned so far followed by the requests still queued are exactly the requests queued at
the start followed by the requests submitted, in submission order.  Hence the returned
sequence is a prefix of the submitted sequence: every request is returned at most once,
and a request submitted before another is returned before it. -/
theorem fcfs_dispatch_order (s : FCFSScheduler) (calls : List Call) :
    (run_calls FCFSScheduler.call s calls).2
        ++ (run_calls FCFSScheduler.call s calls).1.request_queue
      = s.request_queue ++ added calls ∧
    (run_calls FCFSScheduler.call s calls).2 <+: s.request_queue ++ added calls ∧
    (run_calls FCFSScheduler.call s calls).2
      = (s.request_queue ++ added calls).take (run_calls FCFSScheduler.call s calls).2.length := by
  have h := fcfs_run_queue calls s
  refine ⟨h, ⟨_, h⟩, ?_⟩
  rw [← h]
  simp

/-! ## C8: RR requeue -/

theorem rr_get_next_request (s : RRScheduler) :
    s.get_next_request =
      match s.rr_queue with
      | [] => if s.shutdown then Dispatch.null else Dispatch.blocked
      | req :: rest => Dispatch.request req { s with rr_queue := rest } := by
  rcases h : s.rr_queue with _ | ⟨req, rest⟩ <;>
    cases hs : s.shutdown <;> simp [RRScheduler.get_next_request, h, hs]

theorem rr_drain : ∀ (q : List Request) (s : RRScheduler) (tail : List Request),
    s.rr_queue = q ++ tail →
    run_calls RRScheduler.call s (List.replicate q.length Call.get_next_request)
      = ({ s with rr_queue := tail }, q) := by
  intro q
  induction q with
  | nil => intro s tail h; cases s; simp_all [run_calls]
  | cons a q ih =>
    intro s tail h
    have hn : s.get_next_request = Dispatch.request a { s with rr_queue := q ++ tail } := by
      rw [rr_get_next_request, h]; rfl
    simp only [List.length_cons, List.replicate_succ, run_calls, RRScheduler.call, call_with, hn]
    have := ih { s with rr_queue := q ++ tail } tail rfl
    simp only [RRScheduler.call] at this
    simp [this]

/-- C8 (RR requeue goes to the tail).  For every RR scheduler with queue `q1..qn` and
every request `r`: after `requeue_request(r)` the next `n` calls of `get_next_request`
return `q1..qn` in that order, the next `n + 1` calls return `q1..qn` and then `r`, and
`requeue_request` leaves the scheduler in the same state as `add_request`. -/
theorem rr_requeue_tail (s : RRScheduler) (r : Request) :
    (run_calls RRScheduler.call (s.requeue_request r)
        (List.replicate s.rr_queue.length Call.get_next_request)).2 = s.rr_queue ∧
    (run_calls RRScheduler.call (s.requeue_request r)
        (List.replicate (s.rr_queue.length + 1) Call.get_next_request)).2 = s.rr_queue ++ [r] ∧
    s.requeue_request r = s.add_request r := by
  have h1 := rr_drain s.rr_queue (s.requeue_request r) [r] rfl
  have h2 := rr_drain (s.rr_queue ++ [r]) (s.requeue_request r) [] (by simp [RRScheduler.requeue_request])
  refine ⟨by rw [h1], ?_, rfl⟩
  rw [List.length_append, List.length_singleton] at h2
  rw [h2]

/-! ## C4: SJF ordering -/

theorem sjf_next_empty (s : SJFScheduler P) (h : P.elems s.sjf_queue = 0) :
    s.get_next_request = if s.shutdown then Dispatch.null else Dispatch.blocked := by
  have he : P.is_empty s.sjf_queue = true := (P.is_empty_iff _).2 h
  cases hs : s.shutdown <;> simp [SJFScheduler.get_next_request, he, hs]

theorem sjf_next_ready (s : SJFScheduler P) (h : P.elems s.sjf_queue ≠ 0) :
    ∃ x, s.get_next_request = Dispatch.request x { s with sjf_queue := P.pop s.sjf_queue } ∧
      P.elems s.sjf_queue = x ::ₘ P.elems (P.pop s.sjf_queue) ∧
      ∀ y ∈ P.elems s.sjf_queue, x.file_size ≤ y.file_size := by
  have he : P.is_empty s.sjf_queue = false := by
    cases hb : P.is_empty s.sjf_queue
    · rfl
    · exact absurd ((P.is_empty_iff _).1 hb) h
  obtain ⟨x, hx, hel, hmin⟩ := P.top_pop s.sjf_queue h
  refine ⟨x, ?_, hel, ?_⟩
  · simp [SJFScheduler.get_next_request, he, hx]
  · intro y hy
    have := hmin y hy
    simpa [SJFComparator] using this

theorem sjf_next_request (t t1 : SJFScheduler P) (x : Request)
    (h : t.get_next_request = Dispatch.request x t1) :
    P.elems t.sjf_queue = x ::ₘ P.elems t1.sjf_queue ∧
      ∀ y ∈ P.elems t.sjf_queue, x.file_size ≤ y.file_size := by
  by_cases he : P.elems t.sjf_queue = 0
  · rw [sjf_next_empty t he] at h
    cases hs : t.shutdown <;> simp [hs] at h
  · obtain ⟨x1, h1, h2, h3⟩ := sjf_next_ready t he
    rw [h1] at h
    injection h with hx ht
    subst hx
    subst ht
    exact ⟨h2, h3⟩

theorem sjf_drain : ∀ (n : Nat) (s : SJFScheduler P), Multiset.card (P.elems s.sjf_queue) = n →
    ((run_calls SJFScheduler.call s (List.replicate n Call.get_next_request)).2 : Multiset Request)
        = P.elems s.sjf_queue ∧
    (run_calls SJFScheduler.call s (List.replicate n Call.get_next_request)).2.Sorted size_le ∧
    P.elems (run_calls SJFScheduler.call s (List.replicate n Call.get_next_request)).1.sjf_queue = 0 := by
  intro n
  induction n with
  | zero =>
    intro s h
    have h0 : P.elems s.sjf_queue = 0 := Multiset.card_eq_zero.1 h
    simp [run_calls, h0]
  | succ n ih =>
    intro s h
    have hne : P.elems s.sjf_queue ≠ 0 := by
      intro h0; rw [h0] at h; simp at h
    obtain ⟨x, h1, h2, h3⟩ := sjf_next_ready s hne
    have hcard : Multiset.card (P.elems ({ s with sjf_queue := P.pop s.sjf_queue } : SJFScheduler P).sjf_queue) = n := by
      have := congrArg Multiset.card h2
      rw [h, Multiset.card_cons] at this
      simpa using this.symm
    obtain ⟨i1, i2, i3⟩ := ih _ hcard
    simp only [List.replicate_succ, run_calls, SJFScheduler.call, call_with, h1]
    simp only [SJFScheduler.call] at i1 i2 i3
    refine ⟨?_, ?_, i3⟩
    · rw [h2, ← i1]; rfl
    · refine List.sorted_cons.2 ⟨?_, i2⟩
      intro b hb
      have hb2 : b ∈ P.elems (P.pop s.sjf_queue) := by
        rw [← i1]; exact hb
      exact h3 b (by rw [h2]; exact Multiset.mem_cons_of_mem hb2)

theorem sjf_adds : ∀ (reqs : List Request) (s : SJFScheduler P),
    (run_calls SJFScheduler.call s (reqs.map Call.add_request)).2 = [] ∧
    P.elems (run_calls SJFScheduler.call s (reqs.map Call.add_request)).1.sjf_queue
      = P.elems s.sjf_queue + (reqs : Multiset Request) := by
  intro reqs
  induction reqs with
  | nil => intro s; simp [run_calls]
  | cons r rs ih =>
    intro s
    obtain ⟨i1, i2⟩ := ih (s.add_request r)
    simp only [List.map_cons, run_calls, SJFScheduler.call, call_with]
    simp only [SJFScheduler.call] at i1 i2
    refine ⟨i1, ?_⟩
    rw [i2]
    simp only [SJFScheduler.add_request, P.elems_push]
    rw [← Multiset.cons_coe, Multiset.cons_add, Multiset.add_cons]

/-- C4 (SJF ordering).  For every implementation of the priority queue that meets the
library's contract: when the requests `reqs` are submitted to a scheduler whose
`sjf_queue` is empty and `get_next_request` is then called as many times, the requests
returned are a permutation of `reqs` and their `file_size` values are non-decreasing.
Every call that returns a request removes it from the queue and its `file_size` is
minimal among the requests queued at the call. -/
theorem sjf_ordering (s : SJFScheduler P) (reqs : List Request)
    (h0 : P.elems s.sjf_queue = 0) :
    (run_calls SJFScheduler.call s
        (reqs.map Call.add_request ++ List.replicate reqs.length Call.get_next_request)).2.Perm reqs ∧
    ((run_calls SJFScheduler.call s
        (reqs.map Call.add_request ++ List.replicate reqs.length Call.get_next_request)).2.map
        Request.file_size).Sorted (fun a b => a ≤ b) ∧
    ∀ (t t1 : SJFScheduler P) (x : Request), t.get_next_request = Dispatch.request x t1 →
      P.elems t.sjf_queue = x ::ₘ P.elems t1.sjf_queue ∧
      ∀ y ∈ P.elems t.sjf_queue, x.file_size ≤ y.file_size := by
  obtain ⟨a1, a2⟩ := sjf_adds reqs s
  have hcard : Multiset.card (P.elems (run_calls SJFScheduler.call s
      (reqs.map Call.add_request)).1.sjf_queue) = reqs.length := by
    rw [a2, h0]; simp
  obtain ⟨d1, d2, _⟩ := sjf_drain reqs.length _ hcard
  rw [run_calls_append, a1, List.nil_append]
  refine ⟨?_, ?_, sjf_next_request⟩
  · apply Multiset.coe_eq_coe.1
    rw [d1, a2, h0, zero_add]
  · rw [List.Sorted, List.pairwise_map]
    exact d2

/-- Witness of C4: three requests of sizes 5, 3 and 4 on the list-based queue; the
first request returned after the three submissions has size 3. -/
theorem sjf_ordering_witness :
    listPQ.elems ({} : SJFScheduler listPQ).sjf_queue = 0 ∧
    ((run_calls SJFScheduler.call ({} : SJFScheduler listPQ)
        ([{ file_size := 5 }, { file_size := 3 }, { file_size := 4 }].map Call.add_request
          ++ List.replicate 3 Call.get_next_request)).2.map Request.file_size).Sorted
        (fun a b => a ≤ b) ∧
    ∀ y ∈ listPQ.elems (listPQ.push listPQ.emp { file_size := 3 }), 3 ≤ y.file_size :=
  ⟨rfl,
    (sjf_ordering ({} : SJFScheduler listPQ)
      [{ file_size := 5 }, { file_size := 3 }, { file_size := 4 }] rfl).2.1,
    ((sjf_ordering ({} : SJFScheduler listPQ) [] rfl).2.2
      { sjf_queue := listPQ.push listPQ.emp { file_size := 3 } } { sjf_queue := listPQ.emp }
      { file_size := 3 } rfl).2⟩

/-! ## C6: graceful drain -/

theorem any_next_empty (sch : AnyScheduler P) (h : sch.ready = 0) :
    sch.get_next_request = if sch.base.shutdown then Dispatch.null else Dispatch.blocked := by
  cases sch with
  | FCFS s =>
    have hq : s.request_queue = [] := by simpa [AnyScheduler.ready] using h
    simp only [AnyScheduler.get_next_request, fcfs_get_next_request, hq, AnyScheduler.base]
    by_cases hs : s.shutdown = true <;> simp [hs, Dispatch.wrap]
  | SJF s =>
    simp only [AnyScheduler.get_next_request, sjf_next_empty s h, AnyScheduler.base]
    by_cases hs : s.shutdown = true <;> simp [hs, Dispatch.wrap]
  | RR s =>
    have hq : s.rr_queue = [] := by simpa [AnyScheduler.ready] using h
    simp only [AnyScheduler.get_next_request, rr_get_next_request, hq, AnyScheduler.base]
    by_cases hs : s.shutdown = true <;> simp [hs, Dispatch.wrap]

theorem any_next_ready (sch : AnyScheduler P) (h : sch.ready ≠ 0) :
    ∃ r sch1, sch.get_next_request = Dispatch.request r sch1 ∧ sch.ready = r ::ₘ sch1.ready ∧
      sch1.base.shutdown = sch.base.shutdown := by
  cases sch with
  | FCFS s =>
    rcases hq : s.request_queue with _ | ⟨req, rest⟩
    · simp [AnyScheduler.ready, hq] at h
    · refine ⟨req, AnyScheduler.FCFS { s with request_queue := rest }, ?_, ?_, rfl⟩
      · simp only [AnyScheduler.get_next_request, fcfs_get_next_request, hq]; rfl
      · simp [AnyScheduler.ready, hq]
  | SJF s =>
    obtain ⟨x, h1, h2, _⟩ := sjf_next_ready s h
    exact ⟨x, AnyScheduler.SJF { s with sjf_queue := P.pop s.sjf_queue },
      by simp only [AnyScheduler.get_next_request, h1]; rfl, h2, rfl⟩
  | RR s =>
    rcases hq : s.rr_queue with _ | ⟨req, rest⟩
    · simp [AnyScheduler.ready, hq] at h
    · refine ⟨req, AnyScheduler.RR { s with rr_queue := rest }, ?_, ?_, rfl⟩
      · simp only [AnyScheduler.get_next_request, rr_get_next_request, hq]; rfl
      · simp [AnyScheduler.ready, hq]

theorem any_idle (sch : AnyScheduler P) (h : sch.ready = 0) : ∀ m : Nat,
    run_calls AnyScheduler.call sch (List.replicate m Call.get_next_request) = (sch, []) := by
  intro m
  induction m with
  | zero => rfl
  | succ m ih =>
    simp only [List.replicate_succ, run_calls, AnyScheduler.call, call_with, any_next_empty sch h]
    simp only [AnyScheduler.call] at ih
    cases sch.base.shutdown <;> simpa using ih

theorem any_drain : ∀ (n : Nat) (sch : AnyScheduler P), Multiset.card sch.ready = n →
    (run_calls AnyScheduler.call sch (List.replicate n Call.get_next_request)).2.length = n ∧
    ((run_calls AnyScheduler.call sch (List.replicate n Call.get_next_request)).2 : Multiset Request)
        = sch.ready ∧
    (run_calls AnyScheduler.call sch (List.replicate n Call.get_next_request)).1.ready = 0 ∧
    (run_calls AnyScheduler.call sch (List.replicate n Call.get_next_request)).1.base.shutdown
        = sch.base.shutdown := by
  intro n
  induction n with
  | zero =>
    intro sch h
    have h0 : sch.ready = 0 := Multiset.card_eq_zero.1 h
    simp [run_calls, h0]
  | succ n ih =>
    intro sch h
    have hne : sch.ready ≠ 0 := by
      intro h0; rw [h0] at h; simp at h
    obtain ⟨r, sch1, h1, h2, h3⟩ := any_next_ready sch hne
    have hcard : Multiset.card sch1.ready = n := by
      have := congrArg Multiset.card h2
      rw [h, Multiset.card_cons] at this
      omega
    obtain ⟨i1, i2, i3, i4⟩ := ih sch1 hcard
    simp only [List.replicate_succ, run_calls, AnyScheduler.call, call_with, h1]
    simp only [AnyScheduler.call] at i1 i2 i3 i4
    refine ⟨by simp [i1], ?_, i3, by rw [i4, h3]⟩
    rw [h2, ← i2]; rfl

theorem any_signal_shutdown (sch : AnyScheduler P) :
    sch.signal_shutdown.ready = sch.ready ∧ sch.signal_shutdown.base.shutdown = true := by
  cases sch <;> exact ⟨rfl, rfl⟩

/-- C6 (graceful drain).  For each of the three schedulers: `get_next_request` returns
`nullptr` if and only if the shutdown flag is set and the ready structure is empty; when
the structure is not empty the call removes and returns one request, whatever the flag.
After `signal_shutdown` with `n` requests queued and no further submission, the next `n`
calls return `n` requests, which are the queued ones; the call after them returns
`nullptr`, and any number of further calls returns nothing more and leaves the state
as it is. -/
theorem graceful_drain (sch : AnyScheduler P) :
    (sch.get_next_request = Dispatch.null ↔ sch.base.shutdown = true ∧ sch.ready = 0) ∧
    (sch.ready ≠ 0 → ∃ r sch1, sch.get_next_request = Dispatch.request r sch1 ∧
      sch.ready = r ::ₘ sch1.ready) ∧
    (run_calls AnyScheduler.call sch.signal_shutdown
        (List.replicate (Multiset.card sch.ready) Call.get_next_request)).2.length
      = Multiset.card sch.ready ∧
    ((run_calls AnyScheduler.call sch.signal_shutdown
        (List.replicate (Multiset.card sch.ready) Call.get_next_request)).2 : Multiset Request)
      = sch.ready ∧
    (run_calls AnyScheduler.call sch.signal_shutdown
        (List.replicate (Multiset.card sch.ready) Call.get_next_request)).1.get_next_request
      = Dispatch.null ∧
    ∀ m : Nat,
      run_calls AnyScheduler.call sch.signal_shutdown
          (List.replicate (Multiset.card sch.ready + m) Call.get_next_request)
        = run_calls AnyScheduler.call sch.signal_shutdown
          (List.replicate (Multiset.card sch.ready) Call.get_next_request) := by
  obtain ⟨s1, s2⟩ := any_signal_shutdown sch
  obtain ⟨d1, d2, d3, d4⟩ := any_drain (Multiset.card sch.ready) sch.signal_shutdown
    (by rw [s1])
  refine ⟨?_, ?_, d1, by rw [d2, s1], ?_, ?_⟩
  · constructor
    · intro h
      by_cases h0 : sch.ready = 0
      · rw [any_next_empty sch h0] at h
        cases hs : sch.base.shutdown
        · simp [hs] at h
        · exact ⟨rfl, h0⟩
      · obtain ⟨r, sch1, h1, _, _⟩ := any_next_ready sch h0
        rw [h1] at h
        cases h
    · rintro ⟨hs, h0⟩
      rw [any_next_empty sch h0, hs]
      rfl
  · intro h
    obtain ⟨r, sch1, h1, h2, _⟩ := any_next_ready sch h
    exact ⟨r, sch1, h1, h2⟩
  · rw [any_next_empty _ d3, d4, s2]
    rfl
  · intro m
    rw [List.replicate_add, run_calls_append, any_idle _ d3 m]
    simp

/-- Witness of C6: an FCFS scheduler with one request queued. -/
theorem graceful_drain_witness :
    (AnyScheduler.FCFS { request_queue := [{}] } : AnyScheduler listPQ).ready ≠ 0 ∧
    ∃ r sch1,
      (AnyScheduler.FCFS { request_queue := [{}] } : AnyScheduler listPQ).get_next_request
        = Dispatch.request r sch1 ∧
      (AnyScheduler.FCFS { request_queue := [{}] } : AnyScheduler listPQ).ready
        = r ::ₘ sch1.ready :=
  ⟨by simp [AnyScheduler.ready],
    (graceful_drain (AnyScheduler.FCFS { request_queue := [{}] } : AnyScheduler listPQ)).2.1
      (by simp [AnyScheduler.ready])⟩

/-! ## Round-robin chunks and the worker loop -/

theorem wire_lines_slice (l : List Str) (c c' : Nat) (hc : c < l.length) (h1 : c < c') :
    wire_lines ((l.take c').drop c)
      = (l.get ⟨c, hc⟩ ++ ['\n']) ++ wire_lines ((l.take c').drop (c + 1)) := by
  have hlen : c < (l.take c').length := by simp; omega
  rw [List.drop_eq_getElem_cons hlen]
  simp [wire_lines, List.getElem_take]

theorem wire_lines_slice_empty (l : List Str) (c : Nat) :
    wire_lines ((l.take c).drop c) = [] := by
  have : (l.take c).drop c = [] := List.drop_eq_nil_of_le (by simp)
  rw [this]; rfl

theorem chunk_loop_spec (quantum_ns t0 : Int) : ∀ (fuel : Nat) (req : Request) (s : Sock)
    (clock : Clock), req.lines_processed ≤ req.file_lines.length →
    req.file_lines.length - req.lines_processed ≤ fuel → sends_ok s →
    ∃ (complete : Bool) (c' : Nat) (s' : Sock) (clock' : Clock),
      chunk_loop quantum_ns t0 fuel req s clock
        = some (complete, { req with lines_processed := c' }, s', clock') ∧
      req.lines_processed ≤ c' ∧ c' ≤ req.file_lines.length ∧
      (complete = true → c' = req.file_lines.length) ∧
      (complete = false → req.lines_processed < c') ∧
      s'.out = s.out ++ wire_lines ((req.file_lines.take c').drop req.lines_processed)
        ++ (if complete then wire_lines [PROTOCOL_END] else []) ∧
      s'.inp = s.inp ∧ sends_ok s' := by
  intro fuel
  induction fuel with
  | zero =>
    intro req s clock hle hfuel hs
    have hge : req.lines_processed ≥ req.file_lines.length := by omega
    obtain ⟨s1, a1, a2, a3, a4⟩ := send_line_ok s PROTOCOL_END hs
    refine ⟨true, req.lines_processed, s1, clock, ?_, le_refl _, hle, (fun _ => by omega),
      (fun h => by cases h), ?_, a3, a4⟩
    · rw [chunk_loop, dif_pos hge, a1]
    · rw [a2, wire_lines_slice_empty]; simp [wire_lines]
  | succ n ih =>
    intro req s clock hle hfuel hs
    by_cases hge : req.lines_processed ≥ req.file_lines.length
    · obtain ⟨s1, a1, a2, a3, a4⟩ := send_line_ok s PROTOCOL_END hs
      refine ⟨true, req.lines_processed, s1, clock, ?_, le_refl _, hle, (fun _ => by omega),
        (fun h => by cases h), ?_, a3, a4⟩
      · rw [chunk_loop, dif_pos hge, a1]
      · rw [a2, wire_lines_slice_empty]; simp [wire_lines]
    · have hlt : req.lines_processed < req.file_lines.length := Nat.lt_of_not_ge hge
      obtain ⟨s1, a1, a2, a3, a4⟩ :=
        send_line_ok s (req.file_lines.get ⟨req.lines_processed, hlt⟩) hs
      by_cases hq : (clock.now.1 - t0) ≥ quantum_ns
      · refine ⟨false, req.lines_processed + 1, s1, clock.now.2, ?_, by omega, by omega,
          (fun h => by cases h), (fun _ => by omega), ?_, a3, a4⟩
        · rw [chunk_loop, dif_neg hge]
          simp only [a1, hq, if_true]
        · rw [a2, wire_lines_slice _ _ _ hlt (Nat.lt_succ_self _), wire_lines_slice_empty]
          simp
      · obtain ⟨complete, c', s2, clock2, b1, b2, b3, b4, b5, b6, b7, b8⟩ :=
          ih { req with lines_processed := req.lines_processed + 1 } s1 clock.now.2
            (by simpa using hlt) (by simp; omega) a4
        simp only at b1 b2 b3 b4 b5 b6
        refine ⟨complete, c', s2, clock2, ?_, by omega, b3, b4, (fun _ => by omega), ?_,
          by rw [b7, a3], b8⟩
        · rw [chunk_loop, dif_neg hge]
          simp only [a1, hq, if_false, b1]
        · rw [b6, a2, wire_lines_slice _ _ c' hlt (by omega)]
          simp [List.append_assoc]

theorem set_sock_same (sv : Server P) (fd : Int) (s : Sock) : (sv.set_sock fd s).socks fd = s := by
  simp [Server.set_sock]

theorem chunk_timed_get (sv : Server P) (req : Request) (hty : req.type = RequestType.GET)
    (hle : req.lines_processed ≤ req.file_lines.length)
    (hs : sends_ok (sv.socks req.client_id)) :
    ∃ (complete : Bool) (c' : Nat) (sv' : Server P),
      process_request_chunk_timed sv req
        = some (complete, { req with lines_processed := c' }, sv') ∧
      req.lines_processed ≤ c' ∧ c' ≤ req.file_lines.length ∧
      (complete = true → c' = req.file_lines.length) ∧
      (complete = false → req.lines_processed < c') ∧
      (sv'.socks req.client_id).out = (sv.socks req.client_id).out
        ++ (if req.lines_processed = 0 then get_header req.file_size else [])
        ++ wire_lines ((req.file_lines.take c').drop req.lines_processed)
        ++ (if complete then wire_lines [PROTOCOL_END] else []) ∧
      sends_ok (sv'.socks req.client_id) ∧
      sv'.scheduler = sv.scheduler ∧ sv'.completed_requests = sv.completed_requests ∧
      sv'.file_storage = sv.file_storage := by
  have hhead : ∃ s1, chunk_header (sv.socks req.client_id) req = (true, s1) ∧
      s1.out = (sv.socks req.client_id).out
        ++ (if req.lines_processed = 0 then get_header req.file_size else []) ∧
      sends_ok s1 := by
    by_cases h0 : req.lines_processed = 0
    · obtain ⟨s1, a1, a2, _, a4⟩ := send_line_ok (sv.socks req.client_id) PROTOCOL_OK hs
      obtain ⟨s2, b1, b2, _, b4⟩ :=
        send_line_ok s1 (PROTOCOL_SIZE ++ " ".toList ++ to_string req.file_size) a4
      refine ⟨s2, by simp only [chunk_header, h0, if_true, a1, b1], ?_, b4⟩
      rw [b2, a2]
      simp [h0, get_header, wire_lines]
    · exact ⟨sv.socks req.client_id, by simp only [chunk_header, h0, if_false], by simp [h0], hs⟩
  obtain ⟨s1, h1, h2, h3⟩ := hhead
  obtain ⟨complete, c', s2, clock2, e1, e2, e3, e4, e5, e6, _, e8⟩ :=
    chunk_loop_spec
      (chunk_quantum_ms sv.scheduler * 1000000)
      sv.clock.now.1 req.file_lines.length req s1 sv.clock.now.2 hle (by omega) h3
  refine ⟨complete, c', { sv with clock := clock2 }.set_sock req.client_id s2, ?_, e2, e3, e4, e5,
    ?_, ?_, rfl, rfl, rfl⟩
  · simp only [process_request_chunk_timed, hty, h1, chunk_body, e1]
  · rw [set_sock_same, e6, h2]
  · rw [set_sock_same]; exact e8

theorem worker_iteration_rr_get (sv : Server P) (rr : RRScheduler) (req : Request)
    (hsch : sv.scheduler = AnyScheduler.RR rr) (hq : rr.rr_queue = [req])
    (hty : req.type = RequestType.GET)
    (hle : req.lines_processed ≤ req.file_lines.length)
    (hs : sends_ok (sv.socks req.client_id)) :
    ∃ (complete : Bool) (c' : Nat) (req' : Request) (sv' : Server P),
      worker_iteration sv = Outcome.running sv' ∧
      req'.type = RequestType.GET ∧ req'.file_lines = req.file_lines ∧
      req'.file_size = req.file_size ∧ req'.client_id = req.client_id ∧
      req'.lines_processed = c' ∧
      req.lines_processed ≤ c' ∧ c' ≤ req.file_lines.length ∧
      (complete = true → c' = req.file_lines.length) ∧
      (complete = false → req.lines_processed < c') ∧
      (sv'.socks req.client_id).out = (sv.socks req.client_id).out
        ++ (if req.lines_processed = 0 then get_header req.file_size else [])
        ++ wire_lines ((req.file_lines.take c').drop req.lines_processed)
        ++ (if complete then wire_lines [PROTOCOL_END] else []) ∧
      sends_ok (sv'.socks req.client_id) ∧
      sv'.completed_requests = sv.completed_requests ++ (if complete then [req'] else []) ∧
      sv'.scheduler = AnyScheduler.RR { rr with rr_queue := if complete then [] else [req'] } := by
  have hnext : sv.scheduler.get_next_request
      = Dispatch.request req (AnyScheduler.RR { rr with rr_queue := [] }) := by
    rw [hsch]
    simp only [AnyScheduler.get_next_request, rr_get_next_request, hq, Dispatch.wrap]
  obtain ⟨st, clk, hstamp⟩ : ∃ (st : Int) (clk : Clock),
      stamp_start req ({ sv with scheduler := AnyScheduler.RR { rr with rr_queue := [] } } : Server P)
      = ({ req with start_time := st },
          { sv with scheduler := AnyScheduler.RR { rr with rr_queue := [] }, clock := clk }) := by
    by_cases h0 : req.start_time = 0
    · exact ⟨sv.clock.now.1, sv.clock.now.2, by simp only [stamp_start, h0, if_true]⟩
    · exact ⟨req.start_time, sv.clock, by simp only [stamp_start, h0, if_false]⟩
  obtain ⟨complete, c', sv3, e1, e2, e3, e4, e5, e6, e7, e8, e9, _⟩ :=
    chunk_timed_get
      ({ sv with scheduler := AnyScheduler.RR { rr with rr_queue := [] }, clock := clk } : Server P)
      { req with start_time := st } hty hle hs
  simp only at e1 e2 e3 e4 e5 e6 e7 e8 e9
  cases complete with
  | true =>
    refine ⟨true, c',
      { req with start_time := st, lines_processed := c', finish_time := sv3.clock.now.1 },
      { sv3 with
        clock := sv3.clock.now.2
        completed_requests := sv3.completed_requests ++
          [{ req with start_time := st, lines_processed := c', finish_time := sv3.clock.now.1 }] },
      ?_, hty, rfl, rfl, rfl, rfl, e2, e3, e4, e5, e6, e7, ?_, ?_⟩
    · simp only [worker_iteration, hnext, AnyScheduler.rr_sched, hstamp, e1]
    · simp [e9]
    · simp [e8]
  | false =>
    refine ⟨false, c', { req with start_time := st, lines_processed := c' },
      { sv3 with
        scheduler := sv3.scheduler.requeue_request
          { req with start_time := st, lines_processed := c' } },
      ?_, hty, rfl, rfl, rfl, rfl, e2, e3, e4, e5, e6, e7, ?_, ?_⟩
    · simp only [worker_iteration, hnext, AnyScheduler.rr_sched, hstamp, e1]
    · simp [e9]
    · simp [e8, AnyScheduler.requeue_request, RRScheduler.requeue_request]

theorem wire_lines_slice_drop (l : List Str) (c c' : Nat) (h : c ≤ c') :
    wire_lines ((l.take c').drop c) ++ wire_lines (l.drop c') = wire_lines (l.drop c) := by
  rw [← wire_lines_append]
  congr 1
  have h1 : l.drop c = ((l.take c') ++ l.drop c').drop c := by rw [List.take_append_drop]
  rw [h1, List.drop_append_eq_append_drop]
  have h2 : c - (l.take c').length = 0 ∨ l.drop c' = [] := by
    by_cases hl : c' ≤ l.length
    · left; rw [List.length_take]; omega
    · right; exact List.drop_eq_nil_of_le (by omega)
  rcases h2 with h2 | h2
  · rw [h2, List.drop_zero]
  · rw [h2]; simp

theorem rr_run_get : ∀ (d : Nat) (sv : Server P) (rr : RRScheduler) (req : Request),
    sv.scheduler = AnyScheduler.RR rr → rr.rr_queue = [req] → req.type = RequestType.GET →
    req.lines_processed ≤ req.file_lines.length →
    req.file_lines.length - req.lines_processed ≤ d →
    sends_ok (sv.socks req.client_id) →
    ∃ (n : Nat) (sv' : Server P) (r : Request),
      1 ≤ n ∧ n ≤ d + 1 ∧ calls_until_complete (d + 1) sv = some n ∧
      worker_thread n sv = Outcome.running sv' ∧
      (sv'.socks req.client_id).out = (sv.socks req.client_id).out
        ++ (if req.lines_processed = 0 then get_header req.file_size else [])
        ++ wire_lines (req.file_lines.drop req.lines_processed)
        ++ wire_lines [PROTOCOL_END] ∧
      sv'.completed_requests = sv.completed_requests ++ [r] ∧
      r.type = RequestType.GET ∧ r.file_lines = req.file_lines ∧
      r.file_size = req.file_size ∧ r.client_id = req.client_id ∧
      sv'.scheduler = AnyScheduler.RR { rr with rr_queue := [] } := by
  intro d
  induction d with
  | zero =>
    intro sv rr req hsch hq hty hle hd hs
    obtain ⟨complete, c', req', sv1, w1, w2, w3, w4, w5, w6, w7, w8, w9, w10, w11, w12, w13, w14⟩ :=
      worker_iteration_rr_get sv rr req hsch hq hty hle hs
    cases complete with
    | false => have := w10 rfl; omega
    | true =>
      have hc : c' = req.file_lines.length := w9 rfl
      refine ⟨1, sv1, req', le_refl _, le_refl _, ?_, ?_, ?_, by simpa using w13, w2, w3, w4, w5,
        by simpa using w14⟩
      · simp [calls_until_complete, w1, w13]
      · simp [worker_thread, w1]
      · rw [w11, hc, List.take_length]; simp
  | succ d ih =>
    intro sv rr req hsch hq hty hle hd hs
    obtain ⟨complete, c', req', sv1, w1, w2, w3, w4, w5, w6, w7, w8, w9, w10, w11, w12, w13, w14⟩ :=
      worker_iteration_rr_get sv rr req hsch hq hty hle hs
    cases complete with
    | true =>
      have hc : c' = req.file_lines.length := w9 rfl
      refine ⟨1, sv1, req', le_refl _, by omega, ?_, ?_, ?_, by simpa using w13, w2, w3, w4, w5,
        by simpa using w14⟩
      · simp [calls_until_complete, w1, w13]
      · simp [worker_thread, w1]
      · rw [w11, hc, List.take_length]; simp
    | false =>
      have hlt : req.lines_processed < c' := w10 rfl
      have hsch1 : sv1.scheduler = AnyScheduler.RR { rr with rr_queue := [req'] } := by
        simpa using w14
      have hcomp1 : sv1.completed_requests = sv.completed_requests := by simpa using w13
      obtain ⟨n, sv2, r, i1, i2, i3, i4, i5, i6, i7, i8, i9, i10, i11⟩ :=
        ih sv1 { rr with rr_queue := [req'] } req' hsch1 rfl w2 (by rw [w3, w6]; exact w8)
          (by rw [w3, w6]; omega) (by rw [w5]; exact w12)
      have hc0 : ¬ req'.lines_processed = 0 := by rw [w6]; omega
      refine ⟨n + 1, sv2, r, by omega, by omega, ?_, ?_, ?_, by rw [i6, hcomp1],
        i7, by rw [i8, w3], by rw [i9, w4], by rw [i10, w5], by simpa using i11⟩
      · rw [calls_until_complete]
        simp [w1, hcomp1, i3]
      · simp [worker_thread, w1, i4]
      · rw [w5] at i5
        rw [i5, if_neg hc0, w3, w6, w11,
          ← wire_lines_slice_drop req.file_lines req.lines_processed c' (le_of_lt hlt)]
        simp [List.append_assoc]

theorem acceptor_iteration_get (sv : Server P) (fd : Int) (f : Str) (rest : List Char)
    (hne : f ≠ []) (hf : ∀ c ∈ f, isspace c = false)
    (hin : (sv.socks fd).inp = get_message f ++ rest) :
    acceptor_iteration sv fd
      = some ({ sv with
                clock := sv.clock.now.2
                scheduler := sv.scheduler.add_request
                  (admitted_get sv.file_storage f fd sv.clock.now.1) }.set_sock fd
              { sv.socks fd with inp := rest }) := by
  have hp := parse_request_get (sv.socks fd) { arrival_time := sv.clock.now.1 } f rest hne hf hin
  cases hfind : map_find sv.file_storage f with
  | none => simp [acceptor_iteration, materialize, hp, retrieve_file, admitted_get, hfind]
  | some lines => simp [acceptor_iteration, materialize, hp, retrieve_file, admitted_get, hfind]

theorem admitted_get_facts (st : Store) (f : Str) (fd : Int) (t : Int) :
    (admitted_get st f fd t).type = RequestType.GET ∧
    (admitted_get st f fd t).file_lines = stored_lines st f ∧
    (admitted_get st f fd t).file_size = payload_size (stored_lines st f) ∧
    (admitted_get st f fd t).client_id = fd ∧
    (admitted_get st f fd t).lines_processed = 0 := by
  cases hfind : map_find st f with
  | none => simp [admitted_get, stored_lines, hfind, payload_size]
  | some lines => simp [admitted_get, stored_lines, hfind, get_file_size_eq]

theorem parse_request_unknown (s : Sock) (req : Request) (line rest : List Char)
    (hnl : '\n' ∉ line) (hput : (extract_token line).1 ≠ PROTOCOL_PUT)
    (hget : (extract_token line).1 ≠ PROTOCOL_GET) (hin : s.inp = line ++ '\n' :: rest) :
    parse_request s req = some (false, req, { s with inp := rest }) := by
  have hrecv := recv_line_line s line rest hnl hin
  rcases h : extract_token line with ⟨cmd, r⟩
  rw [h] at hput hget
  simp only [parse_request, hrecv, h]
  simp only [if_neg hput, if_neg hget]

theorem get_response_eq (N : Nat) (L : List Str) :
    get_response N L = get_header N ++ wire_lines L ++ wire_lines [PROTOCOL_END] := by
  simp [get_response, get_header, wire_lines]

theorem handle_get_missing (st : Store) (p : Nat) (s : Sock) (req : Request) (hs : sends_ok s)
    (hfind : map_find st req.filename = none) :
    ∃ s1, handle_get st p s req = some (false, s1) ∧
      s1.out = s.out ++ wire_lines [PROTOCOL_ERROR ++ " File not found".toList] ∧
      sends_ok s1 := by
  obtain ⟨s1, a1, a2, _, a4⟩ := send_line_ok s (PROTOCOL_ERROR ++ " File not found".toList) hs
  refine ⟨s1, ?_, ?_, a4⟩
  · simp only [handle_get, retrieve_file, hfind, a1]
  · rw [a2]; simp [wire_lines]

/-! ## The calls on one request under RR -/

theorem stamp_start_eq (req : Request) (sv : Server P) :
    ∃ (st : Int) (clk : Clock),
      stamp_start req sv = ({ req with start_time := st }, { sv with clock := clk }) := by
  by_cases h0 : req.start_time = 0
  · exact ⟨sv.clock.now.1, sv.clock.now.2, by simp only [stamp_start, h0, if_true]⟩
  · exact ⟨req.start_time, sv.clock, by simp only [stamp_start, h0, if_false]⟩

theorem rr_chunks_get : ∀ (d : Nat) (env : Nat → Server P) (i : Nat) (req : Request) (s : Sock),
    req.type = RequestType.GET → req.lines_processed ≤ req.file_lines.length →
    req.file_lines.length - req.lines_processed ≤ d → sends_ok s →
    ∃ (n : Nat) (req' : Request) (s' : Sock),
      rr_chunks env (d + 1) i req s = some (n, req', s') ∧ i + 1 ≤ n ∧ n ≤ i + d + 1 ∧
      s'.out = s.out
        ++ (if req.lines_processed = 0 then get_header req.file_size else [])
        ++ wire_lines (req.file_lines.drop req.lines_processed)
        ++ wire_lines [PROTOCOL_END] ∧
      req'.lines_processed = req.file_lines.length ∧ req'.file_lines = req.file_lines ∧
      sends_ok s' := by
  intro d
  induction d with
  | zero =>
    intro env i req s hty hle hd hs
    obtain ⟨st, clk, hstamp⟩ := stamp_start_eq req ((env i).set_sock req.client_id s)
    obtain ⟨complete, c', sv2, e1, e2, e3, e4, e5, e6, e7, _⟩ :=
      chunk_timed_get ({ (env i).set_sock req.client_id s with clock := clk } : Server P)
        { req with start_time := st } hty hle (by simpa [Server.set_sock] using hs)
    simp only [set_sock_same] at e2 e3 e4 e5 e6 e7
    simp only at e1
    cases complete with
    | false => have := e5 rfl; omega
    | true =>
      have hc : c' = req.file_lines.length := e4 rfl
      refine ⟨i + 1,
        { req with start_time := st, lines_processed := c', finish_time := sv2.clock.now.1 },
        sv2.socks req.client_id, ?_, le_refl _, le_refl _, ?_, ?_, rfl, e7⟩
      · simp only [rr_chunks, hstamp, e1]
      · rw [e6, hc, List.take_length]; simp
      · exact hc
  | succ d ih =>
    intro env i req s hty hle hd hs
    obtain ⟨st, clk, hstamp⟩ := stamp_start_eq req ((env i).set_sock req.client_id s)
    obtain ⟨complete, c', sv2, e1, e2, e3, e4, e5, e6, e7, _⟩ :=
      chunk_timed_get ({ (env i).set_sock req.client_id s with clock := clk } : Server P)
        { req with start_time := st } hty hle (by simpa [Server.set_sock] using hs)
    simp only [set_sock_same] at e2 e3 e4 e5 e6 e7
    simp only at e1
    cases complete with
    | true =>
      have hc : c' = req.file_lines.length := e4 rfl
      refine ⟨i + 1,
        { req with start_time := st, lines_processed := c', finish_time := sv2.clock.now.1 },
        sv2.socks req.client_id, ?_, le_refl _, by omega, ?_, ?_, rfl, e7⟩
      · simp only [rr_chunks, hstamp, e1]
      · rw [e6, hc, List.take_length]; simp
      · exact hc
    | false =>
      have hlt : req.lines_processed < c' := e5 rfl
      obtain ⟨n, req', s', i1, i2, i3, i4, i5, i6, i7⟩ :=
        ih env (i + 1) { req with start_time := st, lines_processed := c' }
          (sv2.socks req.client_id) hty e3 (by simp only; omega) e7
      simp only at i1 i4 i5 i6
      refine ⟨n, req', s', ?_, by omega, by omega, ?_, i5, i6, i7⟩
      · rw [rr_chunks]
        simp only [hstamp, e1]
        exact i1
      · have hc0 : ¬ c' = 0 := by omega
        rw [i4, e6, if_neg hc0,
          ← wire_lines_slice_drop req.file_lines req.lines_processed c' (le_of_lt hlt)]
        simp [List.append_assoc]

/-! ## C3: GET size invariant -/

/-- C3 (GET size invariant).  With all sends succeeding and `packet_size >= 1`:
`handle_get` (FCFS and SJF workers) either finds no file and writes the single line
`ERROR File not found`, or finds the lines `L` and writes `OK`, `SIZE N`, the lines of
`L`, `END` with `N` the sum of `len(line) + 1` over `L`.  Under RR, the acceptor that
reads `GET f` on a connection appends to the queue the request whose payload `L` is the
copy of the stored lines (no line when the file is absent); whatever the rest of the
server does between the dispatches of that request, the calls of
`process_request_chunk_timed` on it write to the connection `OK`, `SIZE N`, the lines
of `L`, `END` with `N` the sum of `len(line) + 1` over `L`; and when the request is
alone in the queue the worker loop writes exactly that in at most `|L| + 1`
iterations. -/
theorem get_size_invariant (st : Store) (p : Nat) (s : Sock) (req : Request)
    (sv : Server P) (rr : RRScheduler) (fd : Int) (f : Str) (rest : List Char)
    (hp : 1 ≤ p) (hs : sends_ok s)
    (hsch : sv.scheduler = AnyScheduler.RR rr)
    (hne : f ≠ []) (hf : ∀ c ∈ f, isspace c = false)
    (hin : (sv.socks fd).inp = get_message f ++ rest) (hsv : sends_ok (sv.socks fd)) :
    ((map_find st req.filename = none ∧
        (handle_get st p s req).map (fun r => (r.1, r.2.out))
          = some (false, s.out ++ wire_lines [PROTOCOL_ERROR ++ " File not found".toList])) ∨
      ∃ L, map_find st req.filename = some L ∧
        (handle_get st p s req).map (fun r => (r.1, r.2.out))
          = some (true, s.out ++ get_response (payload_size L) L)) ∧
    ∃ sv1 : Server P,
      acceptor_iteration sv fd = some sv1 ∧
      sv1.scheduler = AnyScheduler.RR { rr with rr_queue := rr.rr_queue ++
        [admitted_get sv.file_storage f fd sv.clock.now.1] } ∧
      (∀ env : Nat → Server P, ∃ (n : Nat) (req' : Request) (s' : Sock),
        rr_chunks env ((stored_lines sv.file_storage f).length + 1) 0
            (admitted_get sv.file_storage f fd sv.clock.now.1) (sv1.socks fd)
          = some (n, req', s') ∧
        s'.out = (sv.socks fd).out
          ++ get_response (payload_size (stored_lines sv.file_storage f))
              (stored_lines sv.file_storage f)) ∧
      (rr.rr_queue = [] → ∃ (sv2 : Server P) (n : Nat),
        n ≤ (stored_lines sv.file_storage f).length + 1 ∧
        worker_thread n sv1 = Outcome.running sv2 ∧
        (sv2.socks fd).out = (sv.socks fd).out
          ++ get_response (payload_size (stored_lines sv.file_storage f))
              (stored_lines sv.file_storage f)) := by
  constructor
  · cases hfind : map_find st req.filename with
    | none =>
      obtain ⟨s1, a1, a2, _⟩ := handle_get_missing st p s req hs hfind
      exact Or.inl ⟨rfl, by rw [a1]; simp [a2]⟩
    | some L =>
      obtain ⟨s1, a1, a2, _, _⟩ := handle_get_found st p s req L hp hs hfind
      refine Or.inr ⟨L, rfl, ?_⟩
      rw [a1, ← get_file_size_eq]; simp [a2]
  · have hacc := acceptor_iteration_get sv fd f rest hne hf hin
    obtain ⟨g1, g2, g3, g4, g5⟩ :=
      admitted_get_facts sv.file_storage f fd sv.clock.now.1
    refine ⟨_, hacc, ?_, ?_, ?_⟩
    · simp [Server.set_sock, hsch, AnyScheduler.add_request, RRScheduler.add_request]
    · intro env
      obtain ⟨n, req', s', i1, _, _, i4, _⟩ :=
        rr_chunks_get (stored_lines sv.file_storage f).length env 0
          (admitted_get sv.file_storage f fd sv.clock.now.1) { sv.socks fd with inp := rest }
          g1 (by rw [g5]; exact Nat.zero_le _) (by rw [g2]; omega) hsv
      refine ⟨n, req', s', by rw [set_sock_same]; exact i1, ?_⟩
      rw [i4, g5, g2, g3, get_response_eq]
      simp
    · intro hq
      obtain ⟨n, sv2, r, _, i2, _, i4, i5, _⟩ :=
        rr_run_get (stored_lines sv.file_storage f).length _ { rr with rr_queue :=
            [admitted_get sv.file_storage f fd sv.clock.now.1] }
          (admitted_get sv.file_storage f fd sv.clock.now.1)
          (show (({ sv with
                  clock := sv.clock.now.2
                  scheduler := sv.scheduler.add_request
                    (admitted_get sv.file_storage f fd sv.clock.now.1) }.set_sock fd
                { sv.socks fd with inp := rest }) : Server P).scheduler = _ by
            simp [Server.set_sock, hsch, AnyScheduler.add_request, RRScheduler.add_request, hq])
          rfl g1 (by rw [g5]; exact Nat.zero_le _) (by rw [g2]; omega)
          (by rw [g4, set_sock_same]; exact hsv)
      refine ⟨sv2, n, i2, i4, ?_⟩
      rw [g4, set_sock_same] at i5
      rw [i5, g5, g2, g3, get_response_eq]
      simp

/-- Witness of C3: the file `a` with the lines `hello` and `world`, served by an RR
server with quantum 10 ms whose queue is empty when the request arrives. -/
theorem get_size_invariant_witness :
    ∃ (sv1 sv2 : Server listPQ) (n : Nat),
      acceptor_iteration rr_get_server 4 = some sv1 ∧
      n ≤ (stored_lines rr_get_server.file_storage "a".toList).length + 1 ∧
      worker_thread n sv1 = Outcome.running sv2 ∧
      (sv2.socks 4).out = (rr_get_server.socks 4).out
        ++ get_response (payload_size (stored_lines rr_get_server.file_storage "a".toList))
            (stored_lines rr_get_server.file_storage "a".toList) := by
  obtain ⟨sv1, h1, _, _, h4⟩ :=
    (get_size_invariant [("a".toList, ["hello".toList, "world".toList])] 1 {}
      { filename := "a".toList } rr_get_server { quantum := 10 } 4 "a".toList []
      (by decide) (by simp [sends_ok]) rfl (by decide) (by decide)
      (by simp [rr_get_server]) (by simp [sends_ok, rr_get_server])).2
  obtain ⟨sv2, n, h5, h6, h7⟩ := h4 rfl
  exact ⟨sv1, sv2, n, h1, h5, h6, h7⟩

/-! ## C7: RR progress bound -/

/-- C7, amended (RR progress bound).  For every GET request with `K` payload lines and
its cursor at 0, every quantum and every behaviour of the clock, with all sends
succeeding: whatever the rest of the server does between the dispatches of the request,
the call of `process_request_chunk_timed` that returns "complete" is the `n`-th one
for some `n` with `1 <= n <= K + 1`; and when the request is alone in the RR queue the
worker loop completes it at its `n`-th iteration for some `n` with `1 <= n <= K + 1`. -/
theorem rr_progress_bound (sv : Server P) (rr : RRScheduler) (req : Request)
    (env : Nat → Server P) (s : Sock)
    (hsch : sv.scheduler = AnyScheduler.RR rr) (hq : rr.rr_queue = [req])
    (hty : req.type = RequestType.GET) (h0 : req.lines_processed = 0)
    (hs : sends_ok (sv.socks req.client_id)) (hs2 : sends_ok s) :
    (∃ (n : Nat) (req' : Request) (s' : Sock),
      rr_chunks env (req.file_lines.length + 1) 0 req s = some (n, req', s') ∧
      1 ≤ n ∧ n ≤ req.file_lines.length + 1) ∧
    ∃ n, calls_until_complete (req.file_lines.length + 1) sv = some n ∧
      1 ≤ n ∧ n ≤ req.file_lines.length + 1 := by
  constructor
  · obtain ⟨n, req', s', j1, j2, j3, _⟩ :=
      rr_chunks_get req.file_lines.length env 0 req s hty (by omega) (by omega) hs2
    exact ⟨n, req', s', j1, by omega, by omega⟩
  · obtain ⟨n, _, _, i1, i2, i3, _⟩ :=
      rr_run_get req.file_lines.length sv rr req hsch hq hty (by omega) (by omega) hs
    exact ⟨n, i3, i1, i2⟩

/-- Witness of C7 amended: the one-line request on the slow clock. -/
theorem rr_progress_bound_witness :
    ∃ n, calls_until_complete (one_line_get.file_lines.length + 1) slow_clock_server = some n ∧
      1 ≤ n ∧ n ≤ one_line_get.file_lines.length + 1 :=
  (rr_progress_bound slow_clock_server { quantum := 1, rr_queue := [one_line_get] } one_line_get
    (fun _ => slow_clock_server) {}
    rfl rfl rfl rfl (by simp [sends_ok, slow_clock_server]) (by simp [sends_ok])).2

/-- C7, counterexample.  A GET with `K = 1` line, quantum 1 ms and a clock that
advances 1 ms per reading: the first call sends the header and the line and returns
"not complete" because the quantum has elapsed; the second call sends `END`.  The
request completes at the second call, so the number of calls is not at most `K`. -/
theorem rr_progress_counterexample :
    one_line_get.file_lines.length = 1 ∧
    calls_until_complete 2 slow_clock_server = some 2 ∧
    ¬ ∃ n, calls_until_complete 2 slow_clock_server = some n ∧ n ≤ one_line_get.file_lines.length := by
  have h : calls_until_complete 2 slow_clock_server = some 2 := by rfl
  refine ⟨rfl, h, ?_⟩
  rintro ⟨n, hn, hle⟩
  rw [h] at hn
  cases hn
  exact absurd hle (by decide)

/-! ## C9: file not found -/

/-- C9, the code at the failing input.  With an empty store and `GET nope` on the
connection: under RR the acceptor admits the request with size 0 and no line, and the
worker's first chunk writes `OK`, `SIZE 0`, `END`; under FCFS the worker writes
`ERROR File not found`. -/
theorem rr_missing_file_reply :
    map_find missing_file_server.file_storage "nope".toList = none ∧
    admit_and_serve missing_file_server 4 = some "OK\nSIZE 0\nEND\n".toList ∧
    admit_and_serve ({ missing_file_server with scheduler := AnyScheduler.FCFS {} } : Server listPQ) 4
      = some "ERROR File not found\n".toList := by
  decide!

/-! ## C10: unknown command -/

/-- C10 (unknown command).  For every first line (newline-terminated) whose first
whitespace-delimited token is neither `PUT` nor `GET` (the empty line included):
`parse_request` returns `false`; with sends succeeding the acceptor writes exactly the
line `ERROR Malformed request` to the client; and the scheduler, the store and the
metrics are left as they were (`add_request` is not called). -/
theorem unknown_command_rejected (sv : Server P) (fd : Int) (line rest : List Char)
    (req : Request) (hnl : '\n' ∉ line)
    (hput : (extract_token line).1 ≠ PROTOCOL_PUT)
    (hget : (extract_token line).1 ≠ PROTOCOL_GET)
    (hin : (sv.socks fd).inp = line ++ '\n' :: rest) (hs : sends_ok (sv.socks fd)) :
    (parse_request (sv.socks fd) req).map (fun r => r.1) = some false ∧
    ∃ sv', acceptor_iteration sv fd = some sv' ∧
      (sv'.socks fd).out = (sv.socks fd).out
        ++ wire_lines [PROTOCOL_ERROR ++ " Malformed request".toList] ∧
      sv'.scheduler = sv.scheduler ∧ sv'.file_storage = sv.file_storage ∧
      sv'.completed_requests = sv.completed_requests := by
  have hp := fun r => parse_request_unknown (sv.socks fd) r line rest hnl hput hget hin
  obtain ⟨s1, a1, a2, _, _⟩ := send_line_ok { sv.socks fd with inp := rest }
    (PROTOCOL_ERROR ++ " Malformed request".toList) hs
  refine ⟨by rw [hp]; rfl, { sv with clock := sv.clock.now.2 }.set_sock fd s1, ?_, ?_,
    rfl, rfl, rfl⟩
  · simp only [acceptor_iteration, hp, Clock.now, a1]
  · rw [set_sock_same, a2]
    simp [wire_lines]

/-- Witness of C10: the first line `DELETE a.txt`. -/
theorem unknown_command_rejected_witness :
    (parse_request (delete_server.socks 4) {}).map (fun r => r.1) = some false ∧
    ∃ sv', acceptor_iteration delete_server 4 = some sv' ∧
      (sv'.socks 4).out = (delete_server.socks 4).out
        ++ wire_lines [PROTOCOL_ERROR ++ " Malformed request".toList] ∧
      sv'.scheduler = delete_server.scheduler ∧ sv'.file_storage = delete_server.file_storage ∧
      sv'.completed_requests = delete_server.completed_requests :=
  unknown_command_rejected delete_server 4 "DELETE a.txt".toList [] {} (by decide) (by decide)
    (by decide) rfl (by simp [sends_ok, delete_server])

/-! ## Totality: the fuel is never used up -/

theorem chunk_loop_total (quantum_ns t0 : Int) : ∀ (fuel : Nat) (req : Request) (s : Sock)
    (clock : Clock), req.file_lines.length - req.lines_processed ≤ fuel →
    chunk_loop quantum_ns t0 fuel req s clock ≠ none := by
  intro fuel
  induction fuel with
  | zero =>
    intro req s clock hf
    have hge : req.lines_processed ≥ req.file_lines.length := by omega
    rw [chunk_loop, dif_pos hge]; simp
  | succ n ih =>
    intro req s clock hf
    by_cases hge : req.lines_processed ≥ req.file_lines.length
    · rw [chunk_loop, dif_pos hge]; simp
    · have hlt : req.lines_processed < req.file_lines.length := Nat.lt_of_not_ge hge
      rcases hsend : send_line s (req.file_lines.get ⟨req.lines_processed, hlt⟩) with ⟨ok, s1⟩
      cases ok with
      | false => rw [chunk_loop, dif_neg hge]; simp only [hsend]; simp
      | true =>
        by_cases hq : (clock.now.1 - t0) ≥ quantum_ns
        · rw [chunk_loop, dif_neg hge]; simp only [hsend, hq, if_true]; simp
        · have := ih { req with lines_processed := req.lines_processed + 1 } s1
            clock.now.2 (by simp; omega)
          rw [chunk_loop, dif_neg hge]
          simp only [hsend, hq, if_false]
          exact this

theorem process_request_chunk_timed_total (sv : Server P) (req : Request) :
    process_request_chunk_timed sv req ≠ none := by
  unfold process_request_chunk_timed
  cases req.type with
  | PUT => simp
  | UNKNOWN => simp
  | GET =>
    simp only
    rcases chunk_header (sv.socks req.client_id) req with ⟨ok, s1⟩
    cases ok with
    | false => simp
    | true =>
      have h := chunk_loop_total (chunk_quantum_ms sv.scheduler * 1000000)
        sv.clock.now.1 req.file_lines.length req s1 sv.clock.now.2 (by omega)
      simp only [chunk_body]
      split
      · rename_i h2; exact absurd h2 h
      · simp

/-! ## C14: the stopping rule of recv_file -/

theorem recv_line_loop_eof (inp : List Char) (h : '\n' ∉ inp) : ∀ acc : Str,
    recv_line_loop inp acc = (false, acc ++ inp, []) := by
  induction inp with
  | nil => intro acc; simp [recv_line_loop]
  | cons c cs ih =>
    intro acc
    have hc : c ≠ '\n' := fun e => h (by simp [e])
    have hcs : '\n' ∉ cs := fun e => h (by simp [e])
    simp [recv_line_loop, hc, ih hcs]

theorem recv_line_eof (s : Sock) (h : '\n' ∉ s.inp) :
    recv_line s = (false, s.inp, { s with inp := [] }) := by
  simp [recv_line, recv_line_loop_eof s.inp h]

theorem stops_at_zero (n received : Nat) (xs : List Str) :
    stops_at n received xs 0 ↔ n ≤ received ∨ (received < n ∧ xs.head? = some PROTOCOL_END) := by
  cases xs <;> simp [stops_at, payload_size]

theorem stops_at_succ (n received : Nat) (x : Str) (xs : List Str) (k : Nat) :
    stops_at n received (x :: xs) (k + 1) ↔ stops_at n (received + (x.length + 1)) xs k := by
  simp [stops_at, payload_size, Nat.add_assoc]

theorem recv_file_loop_stop (n : Nat) (tail : List Char) : ∀ (xs : List Str) (fuel : Nat)
    (s : Sock) (received : Nat) (lines : List Str) (k : Nat),
    (∀ l ∈ xs, '\n' ∉ l) → s.inp = wire_lines xs ++ tail → xs.length ≤ fuel →
    k ≤ xs.length → stops_at n received xs k → (∀ j < k, ¬ stops_at n received xs j) →
    recv_file_loop n fuel s received lines
      = some (true, lines ++ xs.take k,
          { s with inp := wire_lines (xs.drop
              (if n ≤ received + payload_size (xs.take k) then k else k + 1)) ++ tail }) ∧
    ∀ l ∈ xs.take k, l ≠ PROTOCOL_END := by
  intro xs
  induction xs with
  | nil =>
    intro fuel s received lines k hnl hs hfuel hk hstop hmin
    have hk0 : k = 0 := by simpa using hk
    subst hk0
    have hn : n ≤ received := by
      rcases (stops_at_zero n received []).1 hstop with h | h
      · exact h
      · simp at h
    have hs2 : s = { s with inp := wire_lines [] ++ tail } := by
      cases s; simp at hs; simp [hs]
    refine ⟨?_, by simp⟩
    rw [recv_file_loop]
    simp [Nat.not_lt.2 hn, payload_size, hn, ← hs2]
  | cons x xs ih =>
    intro fuel s received lines k hnl hs hfuel hk hstop hmin
    have hx : '\n' ∉ x := hnl x (by simp)
    have hrecv := recv_line_line s x (wire_lines xs ++ tail) hx (by simp [hs, wire_lines])
    cases k with
    | zero =>
      rcases (stops_at_zero n received (x :: xs)).1 hstop with h | ⟨h1, h2⟩
      · have hs2 : s = { s with inp := wire_lines (x :: xs) ++ tail } := by
          cases s; simp at hs; simp [hs]
        refine ⟨?_, by simp⟩
        rw [recv_file_loop]
        simp [Nat.not_lt.2 h, payload_size, h, ← hs2]
      · have hxe : x = PROTOCOL_END := by simpa using h2
        refine ⟨?_, by simp⟩
        rw [recv_file_loop]
        simp [h1, hrecv, hxe, payload_size, Nat.not_le.2 h1]
    | succ k =>
      have h0 : ¬ stops_at n received (x :: xs) 0 := hmin 0 (Nat.succ_pos k)
      rw [stops_at_zero] at h0
      have hlt : received < n := by
        by_contra hc; exact h0 (Or.inl (Nat.le_of_not_lt hc))
      have hxe : x ≠ PROTOCOL_END := by
        intro e; exact h0 (Or.inr ⟨hlt, by simp [e]⟩)
      obtain ⟨f, rfl⟩ : ∃ f, fuel = f + 1 := ⟨fuel - 1, by simp at hfuel; omega⟩
      obtain ⟨i1, i2⟩ := ih f { s with inp := wire_lines xs ++ tail }
        (received + (x.length + 1)) (lines ++ [x]) k
        (fun l hl => hnl l (by simp [hl])) rfl (by simpa using hfuel) (by simpa using hk)
        ((stops_at_succ n received x xs k).1 hstop)
        (fun j hj hc => hmin (j + 1) (by omega) ((stops_at_succ n received x xs j).2 hc))
      have hps : received + payload_size (List.take (k + 1) (x :: xs))
          = received + (x.length + 1) + payload_size (List.take k xs) := by
        simp [payload_size]; omega
      constructor
      · rw [recv_file_loop]
        simp only [hlt, if_true, hrecv, hxe, if_false, i1, hps]
        by_cases hc : n ≤ received + (x.length + 1) + payload_size (List.take k xs)
        · simp [hc]
        · simp [hc]
      · intro l hl
        rcases List.mem_cons.1 (by simpa using hl) with rfl | hl
        · exact hxe
        · exact i2 l hl

theorem recv_file_loop_fail (n : Nat) (tail : List Char) (htail : '\n' ∉ tail) :
    ∀ (xs : List Str) (fuel : Nat) (s : Sock) (received : Nat) (lines : List Str),
    (∀ l ∈ xs, '\n' ∉ l) → s.inp = wire_lines xs ++ tail → xs.length ≤ fuel →
    (∀ k ≤ xs.length, ¬ stops_at n received xs k) →
    recv_file_loop n fuel s received lines = some (false, lines ++ xs, { s with inp := [] }) := by
  intro xs
  induction xs with
  | nil =>
    intro fuel s received lines hnl hs hfuel hno
    have h0 := hno 0 (le_refl _)
    rw [stops_at_zero] at h0
    have hlt : received < n := by
      by_contra hc; exact h0 (Or.inl (Nat.le_of_not_lt hc))
    have hrecv := recv_line_eof s (by rw [hs]; simpa [wire_lines] using htail)
    rw [recv_file_loop]
    simp [hlt, hrecv]
  | cons x xs ih =>
    intro fuel s received lines hnl hs hfuel hno
    have hx : '\n' ∉ x := hnl x (by simp)
    have hrecv := recv_line_line s x (wire_lines xs ++ tail) hx (by simp [hs, wire_lines])
    have h0 := hno 0 (Nat.zero_le _)
    rw [stops_at_zero] at h0
    have hlt : received < n := by
      by_contra hc; exact h0 (Or.inl (Nat.le_of_not_lt hc))
    have hxe : x ≠ PROTOCOL_END := by
      intro e; exact h0 (Or.inr ⟨hlt, by simp [e]⟩)
    obtain ⟨f, rfl⟩ : ∃ f, fuel = f + 1 := ⟨fuel - 1, by simp at hfuel; omega⟩
    have := ih f { s with inp := wire_lines xs ++ tail } (received + (x.length + 1))
      (lines ++ [x]) (fun l hl => hnl l (by simp [hl])) rfl (by simpa using hfuel)
      (fun k hk hc => hno (k + 1) (by simpa using hk) ((stops_at_succ n received x xs k).2 hc))
    rw [recv_file_loop]
    simp only [hlt, if_true, hrecv, hxe, if_false, this]
    simp


/-- C14 (recv_file stopping rule).  Let the input of the connection be the
newline-terminated lines `xs` followed by bytes without a newline, and `n` the declared
size.  If `k` is the least length of a prefix of `xs` at which the stopping condition
holds (byte count of the prefix at least `n`, or below `n` with `END` as the next line),
`recv_file` succeeds and returns that prefix; no returned line equals `END`; the input
left unread starts right after the prefix in the first case (an `END` there is not
consumed) and right after the `END` line in the second, so nothing after the stopping
point is read.  The call fails if and only if the condition holds at no prefix of the
lines received, that is when the input ends first. -/
theorem recv_file_stopping_rule (s : Sock) (xs : List Str) (tail : List Char) (n : Nat)
    (hxs : ∀ l ∈ xs, '\n' ∉ l) (htail : '\n' ∉ tail) (hs : s.inp = wire_lines xs ++ tail) :
    (∀ k, k ≤ xs.length → stops_at n 0 xs k → (∀ j < k, ¬ stops_at n 0 xs j) →
      recv_file s n
        = some (true, xs.take k,
            { s with inp := wire_lines (xs.drop
                (if n ≤ 0 + payload_size (xs.take k) then k else k + 1)) ++ tail }) ∧
      ∀ l ∈ xs.take k, l ≠ PROTOCOL_END) ∧
    ((recv_file s n).map (fun r => r.1) = some false ↔
      ∀ k ≤ xs.length, ¬ stops_at n 0 xs k) := by
  have hfuel : xs.length ≤ s.inp.length := by
    rw [hs, List.length_append]; have := wire_lines_length xs; omega
  have hstop : ∀ k, k ≤ xs.length → stops_at n 0 xs k → (∀ j < k, ¬ stops_at n 0 xs j) →
      recv_file s n
        = some (true, xs.take k,
            { s with inp := wire_lines (xs.drop
                (if n ≤ 0 + payload_size (xs.take k) then k else k + 1)) ++ tail }) ∧
      ∀ l ∈ xs.take k, l ≠ PROTOCOL_END := by
    intro k hk hst hmin
    have := recv_file_loop_stop n tail xs s.inp.length s 0 [] k hxs hs hfuel hk hst hmin
    simpa [recv_file] using this
  refine ⟨hstop, ?_, ?_⟩
  · intro hfail k hk hst
    have hex : ∃ k, k ≤ xs.length ∧ stops_at n 0 xs k := ⟨k, hk, hst⟩
    have hle : Nat.find hex ≤ xs.length := (Nat.find_spec hex).1
    have hmin : ∀ j < Nat.find hex, ¬ stops_at n 0 xs j := by
      intro j hj hc
      exact Nat.find_min hex hj ⟨by omega, hc⟩
    rw [(hstop _ hle (Nat.find_spec hex).2 hmin).1] at hfail
    simp at hfail
  · intro hno
    have := recv_file_loop_fail n tail htail xs s.inp.length s 0 [] hxs hs hfuel hno
    simp only [recv_file, this]
    rfl

/-- Witness of C14: declared size 12; `hello`, `world` reach it and the `END` that
follows stays unread; after `hello` alone an `END` line stops the payload and is
consumed. -/
theorem recv_file_stopping_rule_witness :
    recv_file { inp := "hello\nworld\nEND\nmore\n".toList } 12
      = some (true, ["hello".toList, "world".toList], { inp := "END\nmore\n".toList }) ∧
    recv_file { inp := "hello\nEND\nmore\n".toList } 12
      = some (true, ["hello".toList], { inp := "more\n".toList }) :=
  ⟨((recv_file_stopping_rule { inp := "hello\nworld\nEND\nmore\n".toList }
      ["hello".toList, "world".toList, "END".toList, "more".toList] [] 12
      (by decide) (by decide) (by decide)).1 2 (by decide) (by decide) (by decide)).1,
   ((recv_file_stopping_rule { inp := "hello\nEND\nmore\n".toList }
      ["hello".toList, "END".toList, "more".toList] [] 12
      (by decide) (by decide) (by decide)).1 1 (by decide) (by decide) (by decide)).1⟩

/-! ## The lines read by parse_request -/

theorem recv_line_loop_inv : ∀ (inp : List Char) (acc line rest : List Char),
    recv_line_loop inp acc = (true, line, rest) →
    ∃ l, line = acc ++ l ∧ inp = l ++ '\n' :: rest ∧ '\n' ∉ l := by
  intro inp
  induction inp with
  | nil => intro acc line rest h; simp [recv_line_loop] at h
  | cons c cs ih =>
    intro acc line rest h
    by_cases hc : c = '\n'
    · simp only [recv_line_loop, hc, if_true] at h
      injection h with _ h2
      injection h2 with h2 h3
      exact ⟨[], by simp [h2], by simp [hc, h3], by simp⟩
    · simp only [recv_line_loop, hc, if_false] at h
      obtain ⟨l, h1, h2, h3⟩ := ih _ _ _ h
      refine ⟨c :: l, by simp [h1], by simp [h2], ?_⟩
      intro hm
      rcases List.mem_cons.1 hm with e | e
      · exact hc e.symm
      · exact h3 e

theorem recv_line_inv (s : Sock) (line : Str) (s1 : Sock) (h : recv_line s = (true, line, s1)) :
    s.inp = line ++ '\n' :: s1.inp ∧ '\n' ∉ line ∧ s1 = { s with inp := s1.inp } := by
  simp only [recv_line] at h
  rcases hl : recv_line_loop s.inp [] with ⟨ok, l, rest⟩
  rw [hl] at h
  injection h with h1 h2
  injection h2 with h2 h3
  subst h1 h2 h3
  obtain ⟨l', e1, e2, e3⟩ := recv_line_loop_inv _ _ _ _ hl
  simp only [List.nil_append] at e1
  subst e1
  exact ⟨e2, e3, rfl⟩

theorem parse_request_get_line (s : Sock) (req : Request) (line rest : List Char)
    (hnl : '\n' ∉ line) (hin : s.inp = line ++ '\n' :: rest)
    (hget : first_token line = PROTOCOL_GET) :
    parse_request s req
      = some (true, { req with type := RequestType.GET, filename := second_token line },
          { s with inp := rest }) := by
  have hrecv := recv_line_line s line rest hnl hin
  have hne : first_token line ≠ PROTOCOL_PUT := by rw [hget]; decide
  simp only [first_token] at hget hne
  simp only [parse_request, hrecv, second_token]
  rcases h : extract_token line with ⟨cmd, r⟩
  rw [h] at hget hne
  rcases h2 : extract_token r with ⟨fn, r2⟩
  simp only [h2, if_neg hne, if_pos hget]

theorem parse_request_put_eof (s : Sock) (req : Request) (line rest : List Char)
    (hnl : '\n' ∉ line) (hin : s.inp = line ++ '\n' :: rest)
    (hput : first_token line = PROTOCOL_PUT) (hrest : '\n' ∉ rest) :
    parse_request s req
      = some (false, { req with type := RequestType.PUT, filename := second_token line },
          { s with inp := [] }) := by
  have hrecv := recv_line_line s line rest hnl hin
  have hrecv2 := recv_line_eof { s with inp := rest } hrest
  simp only [first_token] at hput
  simp only [parse_request, hrecv, second_token]
  rcases h : extract_token line with ⟨cmd, r⟩
  rw [h] at hput
  rcases h2 : extract_token r with ⟨fn, r2⟩
  simp only [h2, if_pos hput, hrecv2]

theorem parse_request_put_bad_size (s : Sock) (req : Request) (line size_line rest : List Char)
    (hnl : '\n' ∉ line) (hnl2 : '\n' ∉ size_line)
    (hin : s.inp = line ++ '\n' :: (size_line ++ '\n' :: rest))
    (hput : first_token line = PROTOCOL_PUT) (hsize : first_token size_line ≠ PROTOCOL_SIZE) :
    ∃ r, parse_request s req = some (false, r, { s with inp := rest }) ∧
      r.type = RequestType.PUT ∧ r.filename = second_token line := by
  have hrecv := recv_line_line s line (size_line ++ '\n' :: rest) hnl hin
  have hrecv2 := recv_line_line { s with inp := size_line ++ '\n' :: rest } size_line rest hnl2 rfl
  simp only [first_token] at hput hsize
  simp only [parse_request, hrecv, second_token]
  rcases h : extract_token line with ⟨cmd, r⟩
  rw [h] at hput
  rcases h2 : extract_token r with ⟨fn, r2⟩
  rcases h3 : extract_token size_line with ⟨size_cmd, size_rest⟩
  rw [h3] at hsize
  simp only [h2, if_pos hput, hrecv2, h3, ne_eq, hsize, not_false_eq_true, if_true]
  by_cases he : size_cmd = []
  · exact ⟨{ req with type := RequestType.PUT, filename := fn },
      by simp only [he, if_true], rfl, rfl⟩
  · exact ⟨{ req with type := RequestType.PUT, filename := fn,
                      file_size := extract_size_t size_rest req.file_size },
      by simp only [he, if_false], rfl, rfl⟩

theorem parse_request_put_size (s : Sock) (req : Request) (line size_line rest : List Char)
    (hnl : '\n' ∉ line) (hnl2 : '\n' ∉ size_line)
    (hin : s.inp = line ++ '\n' :: (size_line ++ '\n' :: rest))
    (hput : first_token line = PROTOCOL_PUT) (hsize : first_token size_line = PROTOCOL_SIZE) :
    parse_request s req
      = (recv_file { s with inp := rest } (declared_size size_line req.file_size)).map
          (fun r => (r.1,
            { req with type := RequestType.PUT, filename := second_token line,
                       file_size := declared_size size_line req.file_size,
                       file_lines := r.2.1 }, r.2.2)) := by
  have hrecv := recv_line_line s line (size_line ++ '\n' :: rest) hnl hin
  have hrecv2 := recv_line_line { s with inp := size_line ++ '\n' :: rest } size_line rest hnl2 rfl
  simp only [first_token] at hput hsize
  simp only [parse_request, hrecv, second_token, declared_size]
  rcases h : extract_token line with ⟨cmd, r⟩
  rw [h] at hput
  rcases h2 : extract_token r with ⟨fn, r2⟩
  rcases h3 : extract_token size_line with ⟨size_cmd, size_rest⟩
  rw [h3] at hsize
  simp only at hsize hput
  subst hsize
  simp only [h2, if_pos hput, hrecv2, h3, ne_eq, not_true_eq_false, if_false]
  have hne2 : ¬ PROTOCOL_SIZE = [] := by decide
  simp only [hne2, if_false]
  rcases hr : recv_file { s with inp := rest } (extract_size_t size_rest req.file_size)
    with _ | ⟨ok, lines, s3⟩
  · simp
  · cases ok <;> simp


theorem exists_first_newline : ∀ inp : List Char,
    '\n' ∉ inp ∨ ∃ l r, inp = l ++ '\n' :: r ∧ '\n' ∉ l := by
  intro inp
  induction inp with
  | nil => left; simp
  | cons c cs ih =>
    by_cases hc : c = '\n'
    · right; exact ⟨[], cs, by simp [hc], by simp⟩
    · rcases ih with h | ⟨l, r, h1, h2⟩
      · left
        intro hm
        rcases List.mem_cons.1 hm with e | e
        · exact hc e.symm
        · exact h e
      · right
        refine ⟨c :: l, r, by simp [h1], ?_⟩
        intro hm
        rcases List.mem_cons.1 hm with e | e
        · exact hc e.symm
        · exact h2 e

theorem parse_request_no_line (s : Sock) (req : Request) (h : '\n' ∉ s.inp) :
    parse_request s req = some (false, req, { s with inp := [] }) := by
  simp only [parse_request, recv_line_eof s h]

theorem parse_request_success (s : Sock) (req r : Request) (s' : Sock)
    (h : parse_request s req = some (true, r, s')) :
    ∃ line rest, '\n' ∉ line ∧ s.inp = line ++ '\n' :: rest ∧
      ((first_token line = PROTOCOL_GET ∧
          r = { req with type := RequestType.GET, filename := second_token line } ∧
          s' = { s with inp := rest }) ∨
       (first_token line = PROTOCOL_PUT ∧
          ∃ size_line rest2, '\n' ∉ size_line ∧ rest = size_line ++ '\n' :: rest2 ∧
            first_token size_line = PROTOCOL_SIZE ∧
            r = { req with type := RequestType.PUT, filename := second_token line,
                           file_size := declared_size size_line req.file_size,
                           file_lines := r.file_lines } ∧
            recv_file { s with inp := rest2 } (declared_size size_line req.file_size)
              = some (true, r.file_lines, s'))) := by
  rcases exists_first_newline s.inp with h0 | ⟨line, rest, hin, hnl⟩
  · rw [parse_request_no_line s req h0] at h
    simp at h
  · refine ⟨line, rest, hnl, hin, ?_⟩
    by_cases hget : first_token line = PROTOCOL_GET
    · left
      rw [parse_request_get_line s req line rest hnl hin hget] at h
      simp only [Option.some.injEq, Prod.mk.injEq, true_and] at h
      exact ⟨hget, h.1.symm, h.2.symm⟩
    · by_cases hput : first_token line = PROTOCOL_PUT
      · right
        refine ⟨hput, ?_⟩
        rcases exists_first_newline rest with h1 | ⟨size_line, rest2, hin2, hnl2⟩
        · rw [parse_request_put_eof s req line rest hnl hin hput h1] at h
          simp at h
        · subst hin2
          by_cases hsize : first_token size_line = PROTOCOL_SIZE
          · refine ⟨size_line, rest2, hnl2, rfl, hsize, ?_⟩
            rw [parse_request_put_size s req line size_line rest2 hnl hnl2 hin hput hsize] at h
            rcases hr : recv_file { s with inp := rest2 }
              (declared_size size_line req.file_size) with _ | ⟨ok, lines, s3⟩
            · rw [hr] at h; simp at h
            · rw [hr] at h
              simp only [Option.map_some', Option.some.injEq, Prod.mk.injEq] at h
              obtain ⟨h1, h2, h3⟩ := h
              subst h1 h3
              subst h2
              exact ⟨rfl, rfl⟩
          · obtain ⟨r', hr', _⟩ :=
              parse_request_put_bad_size s req line size_line rest2 hnl hnl2 hin hput hsize
            rw [hr'] at h
            simp at h
      · simp only [first_token] at hget hput
        rw [parse_request_unknown s req line rest hnl hput hget hin] at h
        simp at h


/-! ## C11: shape of the first line -/

/-- C11, amended (first-line shape).  `parse_request` succeeds only if a first line is
received whose first whitespace-delimited token is `PUT` or `GET`, and the filename it
records is the second token of that line (empty when there is none; later tokens are
ignored).  When the first token is `GET` the call succeeds whatever follows it on the
line.  When the first token is neither `PUT` nor `GET` the call fails and leaves the
request as it was. -/
theorem first_line_shape (s : Sock) (req : Request) :
    (∀ r s', parse_request s req = some (true, r, s') →
      ∃ line rest, '\n' ∉ line ∧ s.inp = line ++ '\n' :: rest ∧
        (first_token line = PROTOCOL_PUT ∨ first_token line = PROTOCOL_GET) ∧
        r.filename = second_token line) ∧
    (∀ line rest, '\n' ∉ line → s.inp = line ++ '\n' :: rest →
      first_token line = PROTOCOL_GET →
      parse_request s req
        = some (true, { req with type := RequestType.GET, filename := second_token line },
            { s with inp := rest })) ∧
    (∀ line rest, '\n' ∉ line → s.inp = line ++ '\n' :: rest →
      first_token line ≠ PROTOCOL_PUT → first_token line ≠ PROTOCOL_GET →
      parse_request s req = some (false, req, { s with inp := rest })) := by
  refine ⟨?_, ?_, ?_⟩
  · intro r s' h
    obtain ⟨line, rest, hnl, hin, hcase⟩ := parse_request_success s req r s' h
    refine ⟨line, rest, hnl, hin, ?_⟩
    rcases hcase with ⟨hget, hr, _⟩ | ⟨hput, size_line, rest2, _, _, _, hr, _⟩
    · exact ⟨Or.inr hget, by rw [hr]⟩
    · exact ⟨Or.inl hput, by rw [hr]⟩
  · intro line rest hnl hin hget
    exact parse_request_get_line s req line rest hnl hin hget
  · intro line rest hnl hin hput hget
    exact parse_request_unknown s req line rest hnl hput hget hin

/-- Witness of C11 amended: `GET a.txt` is accepted, `DELETE a.txt` is rejected. -/
theorem first_line_shape_witness :
    parse_request { inp := "GET a.txt\n".toList } {}
      = some (true, { type := RequestType.GET, filename := "a.txt".toList }, {}) ∧
    parse_request { inp := "DELETE a.txt\n".toList } {} = some (false, {}, {}) :=
  ⟨(first_line_shape { inp := "GET a.txt\n".toList } {}).2.1 "GET a.txt".toList []
      (by decide) (by decide) (by decide),
   (first_line_shape { inp := "DELETE a.txt\n".toList } {}).2.2 "DELETE a.txt".toList []
      (by decide) (by decide) (by decide) (by decide)⟩

/-- C11, counterexample.  The first lines `GET` (no filename) and `GET a b` (an extra
token) are not of the form `<CMD> <FILENAME>`, and `parse_request` succeeds on both,
with the filenames `""` and `a`. -/
theorem first_line_shape_counterexample :
    parse_request { inp := "GET\n".toList } {}
      = some (true, { type := RequestType.GET, filename := [] }, {}) ∧
    parse_request { inp := "GET a b\n".toList } {}
      = some (true, { type := RequestType.GET, filename := "a".toList }, {}) := by
  decide

/-! ## C12: the SIZE line of a PUT -/

/-- C12, amended (PUT requires a SIZE line).  For a PUT whose second line has been
received: `parse_request` fails whenever the first token of that line is not `SIZE`;
when it is `SIZE`, the declared size is what `operator>>` reads after it and the
payload stored in the request (with the result flag) is exactly the result of
`recv_file` with that declared size.  The declared size of `SIZE N` is `N` for every
`N` that fits `size_t`; `SIZE` alone leaves the size as it was (0 in a fresh request)
and `SIZE abc` gives 0. -/
theorem put_size_line (s : Sock) (req : Request) (line size_line rest : List Char)
    (hnl : '\n' ∉ line) (hnl2 : '\n' ∉ size_line)
    (hin : s.inp = line ++ '\n' :: (size_line ++ '\n' :: rest))
    (hput : first_token line = PROTOCOL_PUT) :
    (first_token size_line ≠ PROTOCOL_SIZE →
      (parse_request s req).map (fun r => r.1) = some false) ∧
    (first_token size_line = PROTOCOL_SIZE →
      parse_request s req
        = (recv_file { s with inp := rest } (declared_size size_line req.file_size)).map
            (fun r => (r.1,
              { req with type := RequestType.PUT, filename := second_token line,
                         file_size := declared_size size_line req.file_size,
                         file_lines := r.2.1 }, r.2.2))) ∧
    (∀ N old, N ≤ SIZE_MAX → declared_size (PROTOCOL_SIZE ++ ' ' :: to_string N) old = N) ∧
    (∀ old, declared_size "SIZE".toList old = old) ∧
    (∀ old, declared_size "SIZE abc".toList old = 0) := by
  refine ⟨?_, ?_, ?_, ?_, ?_⟩
  · intro hsize
    obtain ⟨r, hr, _⟩ :=
      parse_request_put_bad_size s req line size_line rest hnl hnl2 hin hput hsize
    rw [hr]; rfl
  · intro hsize
    exact parse_request_put_size s req line size_line rest hnl hnl2 hin hput hsize
  · intro N old hN
    rw [declared_size, extract_token_command _ _ (Or.inr (Or.inr rfl))]
    exact extract_size_t_to_string N old hN
  · intro old; rfl
  · intro old; rfl

/-- Witness of C12 amended: the second lines `LENGTH 5` and `SIZE 6`. -/
theorem put_size_line_witness :
    (parse_request { inp := "PUT a\nLENGTH 5\nhello\nEND\n".toList } {}).map (fun r => r.1)
      = some false ∧
    parse_request { inp := "PUT a\nSIZE 6\nhello\nEND\n".toList } {}
      = (recv_file { inp := "hello\nEND\n".toList } (declared_size "SIZE 6".toList 0)).map
          (fun r => (r.1,
            { type := RequestType.PUT, filename := second_token "PUT a".toList,
              file_size := declared_size "SIZE 6".toList 0, file_lines := r.2.1 }, r.2.2)) :=
  ⟨(put_size_line { inp := "PUT a\nLENGTH 5\nhello\nEND\n".toList } {} "PUT a".toList
      "LENGTH 5".toList "hello\nEND\n".toList (by decide) (by decide) (by decide)
      (by decide)).1 (by decide),
   (put_size_line { inp := "PUT a\nSIZE 6\nhello\nEND\n".toList } {} "PUT a".toList
      "SIZE 6".toList "hello\nEND\n".toList (by decide) (by decide) (by decide)
      (by decide)).2.1 (by decide)⟩

/-- C12, counterexample.  The second lines `SIZE` alone and `SIZE abc` are not `SIZE`
followed by a decimal integer, and `parse_request` succeeds on both: the declared size
is 0 and the payload is empty. -/
theorem put_size_line_counterexample :
    parse_request { inp := "PUT a\nSIZE\n".toList } {}
      = some (true, { type := RequestType.PUT, filename := "a".toList }, {}) ∧
    parse_request { inp := "PUT a\nSIZE abc\nhello\nEND\n".toList } {}
      = some (true, { type := RequestType.PUT, filename := "a".toList },
          { inp := "hello\nEND\n".toList }) := by
  decide

theorem acceptor_submits_some (sv : Server P) (fd : Int) (r : Request)
    (h : acceptor_submits sv fd = some r) :
    ∃ s1, acceptor_iteration sv fd
      = some ({ sv with clock := sv.clock.now.2,
                        scheduler := sv.scheduler.add_request r }.set_sock fd s1) := by
  unfold acceptor_submits at h
  rcases hp : parse_request (sv.socks fd) { arrival_time := sv.clock.now.1 }
    with _ | ⟨ok, r1, s1⟩
  · rw [hp] at h; simp at h
  · cases ok with
    | false => rw [hp] at h; simp at h
    | true =>
      rw [hp] at h
      simp only [Option.some.injEq] at h
      subst h
      exact ⟨s1, by simp only [acceptor_iteration, hp]⟩

theorem recv_file_loop_below (n : Nat) : ∀ (fuel : Nat) (s : Sock) (received : Nat)
    (lines : List Str) (ok : Bool) (out : List Str) (s' : Sock),
    recv_file_loop n fuel s received lines = some (ok, out, s') →
    ∃ new, out = lines ++ new ∧
      (∀ j < new.length, received + payload_size (new.take j) < n) ∧
      ∀ l ∈ new, l ≠ PROTOCOL_END := by
  intro fuel
  induction fuel with
  | zero =>
    intro s received lines ok out s' h
    rw [recv_file_loop] at h
    by_cases hlt : received < n
    · rcases hr : recv_line s with ⟨ok1, line, s1⟩
      simp only [hlt, if_true, hr] at h
      cases ok1 with
      | false =>
        simp only [Option.some.injEq, Prod.mk.injEq] at h
        exact ⟨[], by simp [h.2.1], by simp, by simp⟩
      | true =>
        by_cases he : line = PROTOCOL_END
        · simp only [he, if_true, Option.some.injEq, Prod.mk.injEq] at h
          exact ⟨[], by simp [h.2.1], by simp, by simp⟩
        · simp [he] at h
    · simp only [hlt, if_false, Option.some.injEq, Prod.mk.injEq] at h
      exact ⟨[], by simp [h.2.1], by simp, by simp⟩
  | succ f ih =>
    intro s received lines ok out s' h
    rw [recv_file_loop] at h
    by_cases hlt : received < n
    · rcases hr : recv_line s with ⟨ok1, line, s1⟩
      simp only [hlt, if_true, hr] at h
      cases ok1 with
      | false =>
        simp only [Option.some.injEq, Prod.mk.injEq] at h
        exact ⟨[], by simp [h.2.1], by simp, by simp⟩
      | true =>
        by_cases he : line = PROTOCOL_END
        · simp only [he, if_true, Option.some.injEq, Prod.mk.injEq] at h
          exact ⟨[], by simp [h.2.1], by simp, by simp⟩
        · simp only [he, if_false] at h
          obtain ⟨new, h1, h2, h3⟩ := ih _ _ _ _ _ _ h
          refine ⟨line :: new, by simp [h1], ?_, ?_⟩
          · intro j hj
            cases j with
            | zero => simpa [payload_size] using hlt
            | succ j =>
              have := h2 j (by simpa using hj)
              simp [payload_size] at this ⊢
              omega
          · intro l hl
            rcases List.mem_cons.1 hl with rfl | hl
            · exact he
            · exact h3 l hl
    · simp only [hlt, if_false, Option.some.injEq, Prod.mk.injEq] at h
      exact ⟨[], by simp [h.2.1], by simp, by simp⟩

theorem recv_file_below (s : Sock) (n : Nat) (ok : Bool) (out : List Str) (s' : Sock)
    (h : recv_file s n = some (ok, out, s')) :
    (∀ j < out.length, payload_size (out.take j) < n) ∧ ∀ l ∈ out, l ≠ PROTOCOL_END := by
  obtain ⟨new, h1, h2, h3⟩ := recv_file_loop_below n _ _ _ _ _ _ _ h
  simp only [List.nil_append] at h1
  subst h1
  exact ⟨fun j hj => by simpa using h2 j hj, h3⟩

theorem materialize_get (st : Store) (r : Request) (hty : r.type = RequestType.GET)
    (hl : r.file_lines = []) :
    (materialize st r).file_size = payload_size (materialize st r).file_lines ∧
    (materialize st r).type = RequestType.GET := by
  cases hfind : map_find st r.filename with
  | none => simp [materialize, hty, retrieve_file, hfind, hl, payload_size]
  | some lines => simp [materialize, hty, retrieve_file, hfind, get_file_size_eq]

theorem materialize_put (st : Store) (r : Request) (hty : r.type = RequestType.PUT) :
    materialize st r = r := by
  simp [materialize, hty]

/-! ## C13: payload size invariant -/

/-- C13, amended (payload size invariant).  Every request `r` that the acceptor passes
to `add_request` is a GET or a PUT.  A GET satisfies `file_size` = sum of
`len(line) + 1` over `file_lines`.  For a PUT the client's input is a first line whose
first token is `PUT`, a second line `size_line` whose first token is `SIZE`, and the
rest; `file_size` is the size declared on that second line (`N` when the line is
`SIZE N` with `N` fitting `size_t`) and `file_lines` is what `recv_file` returns on the
rest for that size.  Every proper prefix of `file_lines` has a byte count below
`file_size`; when the client's message is the PUT message for lines `L` (declaring
`get_file_size(L)`), `file_lines` is `L` and `file_size` is the sum over
`file_lines`. -/
theorem payload_size_invariant (sv : Server P) (fd : Int) (r : Request)
    (h : acceptor_submits sv fd = some r) :
    (∃ s1, acceptor_iteration sv fd
      = some ({ sv with clock := sv.clock.now.2,
                        scheduler := sv.scheduler.add_request r }.set_sock fd s1)) ∧
    (r.type = RequestType.GET ∨ r.type = RequestType.PUT) ∧
    (r.type = RequestType.GET → r.file_size = payload_size r.file_lines) ∧
    (r.type = RequestType.PUT →
      (∃ line size_line rest, '\n' ∉ line ∧ '\n' ∉ size_line ∧
        (sv.socks fd).inp = line ++ '\n' :: (size_line ++ '\n' :: rest) ∧
        first_token line = PROTOCOL_PUT ∧ first_token size_line = PROTOCOL_SIZE ∧
        r.file_size = declared_size size_line 0 ∧
        (∀ N, N ≤ SIZE_MAX → size_line = PROTOCOL_SIZE ++ ' ' :: to_string N →
          r.file_size = N) ∧
        ∃ s', recv_file { sv.socks fd with inp := rest } r.file_size
          = some (true, r.file_lines, s')) ∧
      (∀ j < r.file_lines.length, payload_size (r.file_lines.take j) < r.file_size) ∧
      ∀ f L, f ≠ [] → (∀ c ∈ f, isspace c = false) → (∀ l ∈ L, '\n' ∉ l) →
        (∀ l ∈ L, l ≠ PROTOCOL_END) → get_file_size L ≤ SIZE_MAX →
        (sv.socks fd).inp = put_message f L →
        r.file_lines = L ∧ r.file_size = payload_size r.file_lines) := by
  refine ⟨acceptor_submits_some sv fd r h, ?_⟩
  unfold acceptor_submits at h
  rcases hp : parse_request (sv.socks fd) { arrival_time := sv.clock.now.1 }
    with _ | ⟨ok, r1, s1⟩
  · rw [hp] at h; simp at h
  · cases ok with
    | false => rw [hp] at h; simp at h
    | true =>
      rw [hp] at h
      simp only [Option.some.injEq] at h
      obtain ⟨line, rest, hnl, hin, hcase⟩ := parse_request_success _ _ _ _ hp
      rcases hcase with ⟨_, hr1, _⟩ |
        ⟨hput, size_line, rest2, hnl2, hrest, hsize, hr1, hrecv⟩
      · -- GET
        have hty : ({ r1 with client_id := fd } : Request).type = RequestType.GET := by
          rw [hr1]
        have hl : ({ r1 with client_id := fd } : Request).file_lines = [] := by
          rw [hr1]
        obtain ⟨m1, m2⟩ := materialize_get sv.file_storage _ hty hl
        rw [h] at m1 m2
        refine ⟨Or.inl m2, fun _ => m1, ?_⟩
        intro hput
        rw [m2] at hput
        cases hput
      · -- PUT
        have hty : ({ r1 with client_id := fd } : Request).type = RequestType.PUT := by
          rw [hr1]
        rw [materialize_put _ _ hty] at h
        subst h
        have hfs : r1.file_size = declared_size size_line 0 := by rw [hr1]
        refine ⟨Or.inr hty, ?_, ?_⟩
        · intro hget
          rw [hty] at hget
          cases hget
        · intro _
          refine ⟨⟨line, size_line, rest2, hnl, hnl2, by rw [hin, hrest], hput, hsize, hfs,
            ?_, s1, ?_⟩, ?_, ?_⟩
          · intro N hN hline
            show r1.file_size = N
            rw [hfs, hline, declared_size, extract_token_command _ _ (Or.inr (Or.inr rfl))]
            exact extract_size_t_to_string N 0 hN
          · show recv_file _ r1.file_size = _
            rw [hfs]
            exact hrecv
          · have := (recv_file_below _ _ _ _ _ hrecv).1
            simp only
            rw [hr1]
            exact this
          · intro f L hne hf hnl2 hend hsz hmsg
            have hp2 := parse_request_put (sv.socks fd) { arrival_time := sv.clock.now.1 }
              f L hne hf hnl2 hend hsz hmsg
            rw [hp2] at hp
            simp only [Option.some.injEq, Prod.mk.injEq, true_and] at hp
            simp only
            rw [← hp.1]
            exact ⟨rfl, get_file_size_eq L⟩

/-- Witness of C13 amended: the GET request admitted by `rr_get_server`, and the PUT
request admitted on connection `5` of `overwrite_server` (`SIZE 2`, line `x`). -/
theorem payload_size_invariant_witness :
    (admitted_get rr_get_server.file_storage "a".toList 4 1).file_size
      = payload_size (admitted_get rr_get_server.file_storage "a".toList 4 1).file_lines ∧
    (∃ line size_line rest, '\n' ∉ line ∧ '\n' ∉ size_line ∧
      (overwrite_server.socks 5).inp = line ++ '\n' :: (size_line ++ '\n' :: rest) ∧
      first_token line = PROTOCOL_PUT ∧ first_token size_line = PROTOCOL_SIZE ∧
      (2 : Nat) = declared_size size_line 0 ∧
      (∀ N, N ≤ SIZE_MAX → size_line = PROTOCOL_SIZE ++ ' ' :: to_string N → 2 = N) ∧
      ∃ s', recv_file { overwrite_server.socks 5 with inp := rest } 2
        = some (true, ["x".toList], s')) :=
  ⟨(payload_size_invariant rr_get_server 4
      (admitted_get rr_get_server.file_storage "a".toList 4 1) (by decide)).2.2.1
      (by decide),
   ((payload_size_invariant overwrite_server 5
      { type := RequestType.PUT, filename := "a".toList, file_size := 2,
        file_lines := ["x".toList], client_id := 5, arrival_time := 1 } (by decide)).2.2.2
      rfl).1⟩

/-- C13, counterexample.  The client sends `PUT a`, `SIZE 100`, `hi`, `END`: the
request that the acceptor submits has `file_size = 100` and `file_lines = ["hi"]`, whose
byte count is 3. -/
theorem payload_size_counterexample :
    acceptor_submits short_put_server 4
      = some { type := RequestType.PUT, filename := "a".toList, file_size := 100,
               file_lines := ["hi".toList], client_id := 4, arrival_time := 1 } ∧
    (acceptor_iteration short_put_server 4).map (fun sv => sv.scheduler.base.request_queue)
      = some [{ type := RequestType.PUT, filename := "a".toList, file_size := 100,
                file_lines := ["hi".toList], client_id := 4, arrival_time := 1 }] ∧
    payload_size ["hi".toList] = 3 := by
  decide

theorem handle_get_reply (st : Store) (p : Nat) (s : Sock) (req : Request) (hp : 1 ≤ p)
    (hs : sends_ok s) :
    ∃ ok s1, handle_get st p s req = some (ok, s1) ∧
      s1.out = s.out ++ store_reply st req.filename ∧ sends_ok s1 := by
  cases hfind : map_find st req.filename with
  | none =>
    obtain ⟨s1, a1, a2, a3⟩ := handle_get_missing st p s req hs hfind
    exact ⟨false, s1, a1, by rw [a2, store_reply, hfind], a3⟩
  | some L =>
    obtain ⟨s1, a1, a2, _, a4⟩ := handle_get_found st p s req L hp hs hfind
    exact ⟨true, s1, a1, by rw [a2, store_reply, hfind], a4⟩

/-! ## C16: what an FCFS/SJF GET is served from -/

/-- What `process_request` writes for a GET, with `packet_size >= 1` and all sends
succeeding: the reply that the store determines when `process_request` runs, that is
`ERROR File not found` if the file is absent then, otherwise `OK`, `SIZE n`, the lines
stored then and `END`.  The `file_lines` and `file_size` of the request do not enter
the reply. -/
theorem get_served_from_store (sv : Server P) (req : Request) (fd : Int)
    (hty : req.type = RequestType.GET) (hp : 1 ≤ sv.packet_size)
    (hs : sends_ok (sv.socks fd)) :
    ∃ sv', process_request sv req fd = some sv' ∧
      (sv'.socks fd).out = (sv.socks fd).out ++ store_reply sv.file_storage req.filename ∧
      sv'.file_storage = sv.file_storage := by
  obtain ⟨ok, s1, h1, h2, _⟩ :=
    handle_get_reply sv.file_storage sv.packet_size (sv.socks fd)
      { req with start_time := sv.clock.now.1 } hp hs
  simp only [hty] at h1
  refine ⟨{ sv with
      completed_requests := sv.completed_requests ++
        [{ req with start_time := sv.clock.now.1, finish_time := sv.clock.now.2.now.1 }]
      clock := sv.clock.now.2.now.2
      socks := Function.update sv.socks fd s1 }, ?_, ?_, rfl⟩
  · simp only [process_request, process_request_serve, hty, h1, Option.map_some']
  · simp [h2]

/-- The reply of `process_request` to a GET for the file `a` of `rr_get_server`. -/
theorem get_served_from_store_witness :
    ∃ sv', process_request rr_get_server { type := RequestType.GET, filename := "a".toList } 4
        = some sv' ∧
      (sv'.socks 4).out = (rr_get_server.socks 4).out
        ++ store_reply rr_get_server.file_storage "a".toList ∧
      sv'.file_storage = rr_get_server.file_storage :=
  get_served_from_store rr_get_server { type := RequestType.GET, filename := "a".toList } 4 rfl
    (by decide) (by simp [sends_ok, rr_get_server])

/-- C16, the code at the failing input.  The store holds `a` with three lines
(`file_size = 14`).  Under SJF the GET for `a` is admitted first and the PUT of the
single line `x` for `a` after it; the PUT is smaller and is dispatched first, and the
GET is answered `OK`, `SIZE 2`, `x`, `END`, although the request recorded in the
metrics carries the three lines of the admission.  With the PUT admitted first and the
GET admitted before a worker runs, FCFS answers the GET `OK`, `SIZE 2`, `x`, `END` as
well, while RR, whose chunks send the payload of the request, answers `OK`, `SIZE 14`,
`one`, `two`, `three`, `END`. -/
theorem get_after_overwrite_reply :
    overwrite_run.map (fun sv =>
        ((sv.socks 4).out,
          sv.completed_requests.map (fun r => (r.type, r.file_lines, r.file_size))))
      = some ("OK\nSIZE 2\nx\nEND\n".toList,
          [(RequestType.PUT, ["x".toList], 2),
           (RequestType.GET, ["one".toList, "two".toList, "three".toList], 14)]) ∧
    (overwrite_events (AnyScheduler.FCFS {})).map (fun sv =>
        ((sv.socks 4).out,
          sv.completed_requests.map (fun r => (r.type, r.file_lines, r.file_size))))
      = some ("OK\nSIZE 2\nx\nEND\n".toList,
          [(RequestType.PUT, ["x".toList], 2),
           (RequestType.GET, ["one".toList, "two".toList, "three".toList], 14)]) ∧
    (overwrite_events (AnyScheduler.RR { quantum := 10 })).map (fun sv =>
        ((sv.socks 4).out,
          sv.completed_requests.map (fun r => (r.type, r.file_lines, r.file_size))))
      = some ("OK\nSIZE 14\none\ntwo\nthree\nEND\n".toList,
          [(RequestType.PUT, ["x".toList], 2),
           (RequestType.GET, ["one".toList, "two".toList, "three".toList], 14)]) := by
  refine ⟨?_, ?_, ?_⟩
  · decide!
  · decide!
  · decide!

/-! ## C17: RR chunking does not change the response -/

/-- C17 (RR chunking does not change the response).  Take a GET request as the acceptor
submits it for a file found in the store: cursor 0, payload `file_lines` equal to the
stored lines and `file_size = get_file_size file_lines`.  With all sends succeeding, for
every server state `env i` that the `i`-th call finds (hence every quantum and every
clock, so every sequence of quantum expiries), the calls of
`process_request_chunk_timed` made until one returns complete do end, and what they
write to the client altogether is exactly the lines `OK`, `SIZE file_size`, the lines of
`file_lines` once and in order, `END`.  For every `packet_size >= 1` the FCFS/SJF path
`handle_get` (`send_line("OK")`, `send_line("SIZE ...")`, `send_file`) writes the same
bytes. -/
theorem rr_chunking_same_response (env : Nat → Server P) (i : Nat) (req : Request)
    (s t : Sock)
    (st : Store) (p : Nat)
    (hty : req.type = RequestType.GET) (h0 : req.lines_processed = 0)
    (hfound : map_find st req.filename = some req.file_lines)
    (hsz : req.file_size = get_file_size req.file_lines)
    (hs : sends_ok s) (ht : sends_ok t) (hp : 1 ≤ p) :
    ∃ (n : Nat) (req' : Request) (s' t' : Sock),
      rr_chunks env (req.file_lines.length + 1) i req s = some (n, req', s') ∧
      s'.out = s.out ++ wire_lines
        ([PROTOCOL_OK, PROTOCOL_SIZE ++ ' ' :: to_string req.file_size] ++ req.file_lines
          ++ [PROTOCOL_END]) ∧
      handle_get st p t req = some (true, t') ∧
      t'.out = t.out ++ wire_lines
        ([PROTOCOL_OK, PROTOCOL_SIZE ++ ' ' :: to_string req.file_size] ++ req.file_lines
          ++ [PROTOCOL_END]) := by
  obtain ⟨n, req', s', a1, _, _, a4, _, _, _⟩ :=
    rr_chunks_get req.file_lines.length env i req s hty (by omega) (by omega) hs
  obtain ⟨t', b1, b2, _, _⟩ := handle_get_found st p t req req.file_lines hp ht hfound
  refine ⟨n, req', s', t', a1, ?_, b1, ?_⟩
  · rw [a4]
    have := get_response_eq req.file_size req.file_lines
    simp only [get_response] at this
    rw [this]
    simp [h0]
  · rw [b2, hsz]; rfl

theorem rr_chunking_same_response_witness :
    ∃ (n : Nat) (req' : Request) (s' t' : Sock),
      rr_chunks (fun _ => slow_clock_server) 2 0 one_line_get {} = some (n, req', s') ∧
      s'.out = "OK\nSIZE 2\na\nEND\n".toList ∧
      handle_get [("a".toList, ["a".toList])] 1 {} one_line_get = some (true, t') ∧
      t'.out = "OK\nSIZE 2\na\nEND\n".toList :=
  rr_chunking_same_response (fun _ => slow_clock_server) 0 one_line_get {} {}
    [("a".toList, ["a".toList])] 1 rfl rfl (by decide) (by decide)
    (by intro k hk; cases hk) (by intro k hk; cases hk) (by decide)

/-! ## C18: cursor invariant and forward progress of a chunk -/

theorem chunk_loop_unchecked_eq (quantum_ns t0 : Int) : ∀ (fuel : Nat) (req : Request)
    (s : Sock) (clock : Clock),
    chunk_loop_unchecked quantum_ns t0 fuel req s clock
      = (chunk_loop quantum_ns t0 fuel req s clock).map Except.ok := by
  intro fuel
  induction fuel with
  | zero =>
    intro req s clock
    by_cases hge : req.lines_processed ≥ req.file_lines.length
    · rw [chunk_loop, dif_pos hge, chunk_loop_unchecked, if_pos hge]; rfl
    · rw [chunk_loop, dif_neg hge, chunk_loop_unchecked, if_neg hge]; rfl
  | succ n ih =>
    intro req s clock
    by_cases hge : req.lines_processed ≥ req.file_lines.length
    · rw [chunk_loop, dif_pos hge, chunk_loop_unchecked, if_pos hge]; rfl
    · have hlt : req.lines_processed < req.file_lines.length := Nat.lt_of_not_ge hge
      have hget : req.file_lines.get? req.lines_processed
          = some (req.file_lines.get ⟨req.lines_processed, hlt⟩) := List.get?_eq_get hlt
      rw [chunk_loop, dif_neg hge, chunk_loop_unchecked, if_neg hge]
      simp only [hget]
      rcases hsend : send_line s (req.file_lines.get ⟨req.lines_processed, hlt⟩) with ⟨ok, s1⟩
      cases ok with
      | false => rfl
      | true =>
        by_cases hq : (clock.now.1 - t0) ≥ quantum_ns
        · simp only [hq, if_true]; rfl
        · simp only [hq, if_false]
          exact ih _ _ _

theorem chunk_loop_cursor (quantum_ns t0 : Int) : ∀ (fuel : Nat) (req : Request) (s : Sock)
    (clock : Clock), req.file_lines.length - req.lines_processed ≤ fuel →
    req.lines_processed ≤ req.file_lines.length →
    ∃ (complete : Bool) (c' : Nat) (s' : Sock) (clock' : Clock),
      chunk_loop quantum_ns t0 fuel req s clock
        = some (complete, { req with lines_processed := c' }, s', clock') ∧
      req.lines_processed ≤ c' ∧ c' ≤ req.file_lines.length ∧
      (∀ h : req.lines_processed < req.file_lines.length,
        (send_line s (req.file_lines.get ⟨req.lines_processed, h⟩)).1 = true →
        req.lines_processed < c') := by
  intro fuel
  induction fuel with
  | zero =>
    intro req s clock hf hle
    have hge : req.lines_processed ≥ req.file_lines.length := by omega
    refine ⟨true, req.lines_processed, (send_line s PROTOCOL_END).2, clock, ?_, le_refl _, hle,
      fun h _ => absurd h (by omega)⟩
    rw [chunk_loop, dif_pos hge]
  | succ n ih =>
    intro req s clock hf hle
    by_cases hge : req.lines_processed ≥ req.file_lines.length
    · refine ⟨true, req.lines_processed, (send_line s PROTOCOL_END).2, clock, ?_, le_refl _,
        hle, fun h _ => absurd h (by omega)⟩
      rw [chunk_loop, dif_pos hge]
    · have hlt : req.lines_processed < req.file_lines.length := Nat.lt_of_not_ge hge
      rcases hsend : send_line s (req.file_lines.get ⟨req.lines_processed, hlt⟩) with ⟨ok, s1⟩
      cases ok with
      | false =>
        refine ⟨true, req.lines_processed, s1, clock, ?_, le_refl _, hle, ?_⟩
        · rw [chunk_loop, dif_neg hge]; simp only [hsend]
        · intro h hok
          rw [hsend] at hok
          cases hok
      | true =>
        by_cases hq : (clock.now.1 - t0) ≥ quantum_ns
        · refine ⟨false, req.lines_processed + 1, s1, clock.now.2, ?_, by omega, hlt,
            fun _ _ => by omega⟩
          rw [chunk_loop, dif_neg hge]; simp only [hsend, hq, if_true]
        · obtain ⟨complete, c', s', clock', e1, e2, e3, _⟩ :=
            ih { req with lines_processed := req.lines_processed + 1 } s1
              clock.now.2 (by simp; omega) hlt
          refine ⟨complete, c', s', clock', ?_, ?_, e3, fun _ _ => ?_⟩
          · rw [chunk_loop, dif_neg hge]
            simp only [hsend, hq, if_false]
            exact e1
          · simp only at e2; omega
          · simp only at e2; omega

/-- C18 (RR cursor invariant and forward progress).  For every GET request with cursor
`c = lines_processed <= K = |file_lines|`, on every server state (any connection, on
which sends may fail at any point, any quantum, any clock),
`process_request_chunk_timed` returns, leaving the request unchanged but for its cursor
`c'`, with `c <= c' <= K`.  If `c < K`, the header (when it is due) is sent and the
first send of a payload line succeeds, then `c < c'`, whatever the quantum.  The loop
never indexes `file_lines` out of bounds: run with the unchecked access of the source,
it never ends in `Except.error` and gives the result of the checked loop. -/
theorem chunk_cursor_invariant (sv : Server P) (req : Request)
    (hty : req.type = RequestType.GET)
    (hle : req.lines_processed ≤ req.file_lines.length) :
    (∃ (complete : Bool) (c' : Nat) (sv' : Server P),
      process_request_chunk_timed sv req
        = some (complete, { req with lines_processed := c' }, sv') ∧
      req.lines_processed ≤ c' ∧ c' ≤ req.file_lines.length ∧
      (∀ h : req.lines_processed < req.file_lines.length,
        (chunk_header (sv.socks req.client_id) req).1 = true →
        (send_line (chunk_header (sv.socks req.client_id) req).2
          (req.file_lines.get ⟨req.lines_processed, h⟩)).1 = true →
        req.lines_processed < c')) ∧
    (∀ (quantum_ns t0 : Int) (fuel : Nat) (s : Sock) (clock : Clock),
      chunk_loop_unchecked quantum_ns t0 fuel req s clock
        = (chunk_loop quantum_ns t0 fuel req s clock).map Except.ok) := by
  refine ⟨?_, fun q t0 fuel s clock => chunk_loop_unchecked_eq q t0 fuel req s clock⟩
  rcases hh : chunk_header (sv.socks req.client_id) req with ⟨ok, s1⟩
  cases ok with
  | false =>
    refine ⟨true, req.lines_processed, sv.set_sock req.client_id s1, ?_, le_refl _, hle, ?_⟩
    · have e : process_request_chunk_timed sv req
          = some (true, req, sv.set_sock req.client_id s1) := by
        simp only [process_request_chunk_timed, hty, hh]
      exact e
    · intro _ hok; cases hok
  | true =>
    obtain ⟨complete, c', s', clock', e1, e2, e3, e4⟩ :=
      chunk_loop_cursor (chunk_quantum_ms sv.scheduler * 1000000) sv.clock.now.1
        req.file_lines.length req s1 sv.clock.now.2 (by omega) hle
    refine ⟨complete, c', { sv with clock := clock' }.set_sock req.client_id s', ?_, e2, e3,
      fun h _ hsend => e4 h hsend⟩
    simp only [process_request_chunk_timed, hty, hh, chunk_body, e1]

theorem chunk_cursor_invariant_witness :
    (∃ (complete : Bool) (c' : Nat) (sv' : Server listPQ),
      process_request_chunk_timed slow_clock_server one_line_get
        = some (complete, { one_line_get with lines_processed := c' }, sv') ∧
      one_line_get.lines_processed ≤ c' ∧ c' ≤ one_line_get.file_lines.length ∧
      (∀ h : one_line_get.lines_processed < one_line_get.file_lines.length,
        (chunk_header (slow_clock_server.socks one_line_get.client_id) one_line_get).1 = true →
        (send_line (chunk_header (slow_clock_server.socks one_line_get.client_id)
            one_line_get).2
          (one_line_get.file_lines.get ⟨one_line_get.lines_processed, h⟩)).1 = true →
        one_line_get.lines_processed < c')) ∧
    (∀ (quantum_ns t0 : Int) (fuel : Nat) (s : Sock) (clock : Clock),
      chunk_loop_unchecked quantum_ns t0 fuel one_line_get s clock
        = (chunk_loop quantum_ns t0 fuel one_line_get s clock).map Except.ok) :=
  chunk_cursor_invariant slow_clock_server one_line_get rfl (by decide)

/-! ## C19: Scheduler::empty -/

theorem any_call_request_queue (sch : AnyScheduler P) (c : Call)
    (h : sch.rr_sched.isSome ∨ ∃ s, sch = AnyScheduler.SJF s) :
    (sch.call c).1.base.request_queue = sch.base.request_queue ∧
    ((sch.call c).1.rr_sched.isSome ∨ ∃ s, (sch.call c).1 = AnyScheduler.SJF s) := by
  cases sch with
  | FCFS s => rcases h with h | ⟨_, h⟩ <;> cases h
  | SJF s =>
    cases c with
    | add_request req =>
      exact ⟨rfl, Or.inr ⟨_, rfl⟩⟩
    | requeue_request req => exact ⟨rfl, Or.inr ⟨_, rfl⟩⟩
    | signal_shutdown => exact ⟨rfl, Or.inr ⟨_, rfl⟩⟩
    | get_next_request =>
      simp only [AnyScheduler.call, call_with, AnyScheduler.get_next_request,
        SJFScheduler.get_next_request]
      split_ifs
      · exact ⟨rfl, Or.inr ⟨_, rfl⟩⟩
      · exact ⟨rfl, Or.inr ⟨_, rfl⟩⟩
      · cases P.top s.sjf_queue with
        | none => exact ⟨rfl, Or.inr ⟨_, rfl⟩⟩
        | some x => exact ⟨rfl, Or.inr ⟨_, rfl⟩⟩
  | RR s =>
    cases c with
    | add_request req => exact ⟨rfl, Or.inl rfl⟩
    | requeue_request req => exact ⟨rfl, Or.inl rfl⟩
    | signal_shutdown => exact ⟨rfl, Or.inl rfl⟩
    | get_next_request =>
      simp only [AnyScheduler.call, call_with, AnyScheduler.get_next_request,
        rr_get_next_request]
      cases s.rr_queue with
      | nil => by_cases hs : s.shutdown = true <;> simp [hs, Dispatch.wrap, AnyScheduler.base, AnyScheduler.rr_sched]
      | cons x rest => exact ⟨rfl, Or.inl rfl⟩

theorem any_run_request_queue : ∀ (calls : List Call) (sch : AnyScheduler P),
    (sch.rr_sched.isSome ∨ ∃ s, sch = AnyScheduler.SJF s) →
    (run_calls AnyScheduler.call sch calls).1.base.request_queue = sch.base.request_queue := by
  intro calls
  induction calls with
  | nil => intro sch _; rfl
  | cons c cs ih =>
    intro sch h
    obtain ⟨h1, h2⟩ := any_call_request_queue sch c h
    have h3 := ih (sch.call c).1 h2
    rw [h1] at h3
    rw [← h3]
    simp only [run_calls]
    rcases hc : AnyScheduler.call sch c with ⟨s1, _ | req⟩ <;> simp [hc]

theorem fcfs_empty_iff (s : FCFSScheduler) :
    (AnyScheduler.FCFS s : AnyScheduler P).empty = true
      ↔ (AnyScheduler.FCFS s : AnyScheduler P).ready = 0 := by
  simp [AnyScheduler.empty, AnyScheduler.base, Scheduler.empty, AnyScheduler.ready]

/-- C19 (`Scheduler::empty`), evaluated under RR with quantum 10 and under SJF.  After
`add_request(r)` on a new scheduler, `empty()` returns `true` although the request is
awaiting dispatch and `get_next_request` returns it at once; and after every sequence
of calls on a new `RRScheduler` or `SJFScheduler` `empty()` returns `true`, because it
reads `request_queue`, which these two classes never fill.  On an `FCFSScheduler`
`empty()` is `true` exactly when no request is awaiting dispatch. -/
theorem scheduler_empty_ignores_ready :
    ((AnyScheduler.RR { quantum := 10 } : AnyScheduler listPQ).add_request one_line_get).empty
      = true ∧
    ((AnyScheduler.RR { quantum := 10 } : AnyScheduler listPQ).add_request
        one_line_get).get_next_request
      = Dispatch.request one_line_get (AnyScheduler.RR { quantum := 10 }) ∧
    ((AnyScheduler.SJF {} : AnyScheduler listPQ).add_request one_line_get).empty = true ∧
    ((AnyScheduler.SJF {} : AnyScheduler listPQ).add_request one_line_get).get_next_request
      = Dispatch.request one_line_get (AnyScheduler.SJF {}) ∧
    (∀ calls : List Call,
      (run_calls AnyScheduler.call (AnyScheduler.RR { quantum := 10 } : AnyScheduler listPQ)
        calls).1.empty = true) ∧
    (∀ calls : List Call,
      (run_calls AnyScheduler.call (AnyScheduler.SJF {} : AnyScheduler listPQ)
        calls).1.empty = true) ∧
    (∀ s : FCFSScheduler, (AnyScheduler.FCFS s : AnyScheduler listPQ).empty = true
      ↔ (AnyScheduler.FCFS s : AnyScheduler listPQ).ready = 0) := by
  refine ⟨rfl, rfl, rfl, rfl, ?_, ?_, fun s => fcfs_empty_iff s⟩
  · intro calls
    have h := any_run_request_queue calls
      (AnyScheduler.RR { quantum := 10 } : AnyScheduler listPQ) (Or.inl rfl)
    simp only [AnyScheduler.empty, Scheduler.empty, h]
    rfl
  · intro calls
    have h := any_run_request_queue calls
      (AnyScheduler.SJF {} : AnyScheduler listPQ) (Or.inr ⟨_, rfl⟩)
    simp only [AnyScheduler.empty, Scheduler.empty, h]
    rfl

/-! ## C15: the order of the time stamps -/

end FileServer
